import Mathlib

/-!
Verification of the RadixCanvas viewport-adaptive spatial rendering engine.

This file gives a shallow embedding of the core data structures and
algorithms of the repository (QuadTree spatial index, Path2D geometry
cache, level-of-detail selection, frame scheduler, viewport transforms,
visible-object query paths) and proves or refutes the specified
properties about them.  JavaScript numbers are modelled as rationals,
JavaScript Maps as insertion-ordered association lists, and the
recursive QuadTree insertion is modelled with an explicit fuel argument
that is never exhausted on well-formed trees.
-/

set_option allowUnsafeReducibility true in
attribute [semireducible] Rat.add Rat.sub Rat.mul Rat.inv Rat.ofScientific

set_option maxRecDepth 40000

namespace RadixCanvas

/-- Axis-aligned rectangle, from the source Rectangle interface. -/
structure Rectangle where
  x : ℚ
  y : ℚ
  width : ℚ
  height : ℚ
deriving DecidableEq, Repr

/-- Object transform: translation, rotation, scale (types/canvas.ts). -/
structure Transform where
  x : ℚ
  y : ℚ
  rotation : ℚ
  scaleX : ℚ
  scaleY : ℚ
deriving DecidableEq, Repr

/-- A 2-D point (types/objects.ts Point). -/
structure Point where
  x : ℚ
  y : ℚ
deriving DecidableEq, Repr

/-- The four object kinds of types/objects.ts ObjectType. -/
inductive ObjectType where
  | rectangle
  | circle
  | text
  | line
deriving DecidableEq, Repr

/-- Text alignment variants of ObjectStyle.textAlign. -/
inductive TextAlign where
  | left
  | center
  | right
deriving DecidableEq, Repr

/-- Style record of types/objects.ts ObjectStyle. -/
structure ObjectStyle where
  fill : String
  stroke : String
  strokeWidth : ℚ
  opacity : ℚ
  cornerRadius : Option ℚ
  fontSize : Option ℚ
  fontFamily : Option String
  textAlign : Option TextAlign
deriving DecidableEq, Repr

/-- A drawable scene object (types/objects.ts CanvasObject). -/
structure CanvasObject where
  id : String
  type : ObjectType
  bounds : Rectangle
  style : ObjectStyle
  transform : Transform
  layer : ℚ
  visible : Bool
  locked : Bool
  isDirty : Bool
  text : Option String
  points : Option (List Point)
deriving DecidableEq, Repr

/-- World-space bounding box of an object: local bounds offset by the
transform translation, as computed inline in QuadTree.getIndex and
QuadTree.retrieveObjects. -/
def objWorldBounds (obj : CanvasObject) : Rectangle :=
  { x := obj.bounds.x + obj.transform.x
    y := obj.bounds.y + obj.transform.y
    width := obj.bounds.width
    height := obj.bounds.height }

/-- QuadTree.boundsIntersect: rectangle intersection test. -/
def boundsIntersect (bounds1 bounds2 : Rectangle) : Bool :=
  !(decide (bounds1.x > bounds2.x + bounds2.width)
    || decide (bounds1.x + bounds1.width < bounds2.x)
    || decide (bounds1.y > bounds2.y + bounds2.height)
    || decide (bounds1.y + bounds1.height < bounds2.y))

/-- Closed containment of one rectangle in another (used to state the
invariants about where the tree stores an object). -/
def rectContains (outer inner : Rectangle) : Prop :=
  outer.x ≤ inner.x ∧ inner.x + inner.width ≤ outer.x + outer.width ∧
  outer.y ≤ inner.y ∧ inner.y + inner.height ≤ outer.y + outer.height

instance (outer inner : Rectangle) : Decidable (rectContains outer inner) := by
  unfold rectContains; infer_instance

theorem boundsIntersect_iff (b1 b2 : Rectangle) :
    boundsIntersect b1 b2 = true ↔
      (b1.x ≤ b2.x + b2.width ∧ b2.x ≤ b1.x + b1.width ∧
       b1.y ≤ b2.y + b2.height ∧ b2.y ≤ b1.y + b1.height) := by
  simp [boundsIntersect, not_or, not_lt, and_assoc]

/-- A node of the QuadTree: either no children, or exactly four
children in the source order northeast, northwest, southwest,
southeast. -/
inductive QuadTreeNode where
  | leaf (bounds : Rectangle) (objects : List CanvasObject) (level : Nat)
  | branch (bounds : Rectangle) (objects : List CanvasObject) (level : Nat)
      (ne nw sw se : QuadTreeNode)
deriving Repr

def QuadTreeNode.boundsOf : QuadTreeNode → Rectangle
  | .leaf b _ _ => b
  | .branch b _ _ _ _ _ _ => b

def QuadTreeNode.objectsOf : QuadTreeNode → List CanvasObject
  | .leaf _ objs _ => objs
  | .branch _ objs _ _ _ _ _ => objs

def QuadTreeNode.levelOf : QuadTreeNode → Nat
  | .leaf _ _ lvl => lvl
  | .branch _ _ lvl _ _ _ _ => lvl

/-- All objects stored anywhere in a subtree, node objects first then
children in source order. -/
def QuadTreeNode.allObjs : QuadTreeNode → List CanvasObject
  | .leaf _ objs _ => objs
  | .branch _ objs _ ne nw sw se =>
      objs ++ ne.allObjs ++ nw.allObjs ++ sw.allObjs ++ se.allObjs

/-- Northeast quadrant created by QuadTree.split. -/
def neQuadrant (b : Rectangle) : Rectangle :=
  { x := b.x + b.width / 2, y := b.y, width := b.width / 2, height := b.height / 2 }

/-- Northwest quadrant created by QuadTree.split. -/
def nwQuadrant (b : Rectangle) : Rectangle :=
  { x := b.x, y := b.y, width := b.width / 2, height := b.height / 2 }

/-- Southwest quadrant created by QuadTree.split. -/
def swQuadrant (b : Rectangle) : Rectangle :=
  { x := b.x, y := b.y + b.height / 2, width := b.width / 2, height := b.height / 2 }

/-- Southeast quadrant created by QuadTree.split. -/
def seQuadrant (b : Rectangle) : Rectangle :=
  { x := b.x + b.width / 2, y := b.y + b.height / 2, width := b.width / 2, height := b.height / 2 }

/-- QuadTree.getIndex: quadrant index for an object (0 NE, 1 NW, 2 SW,
3 SE), none when the object does not fit strictly inside one quadrant. -/
def getIndex (nodeBounds : Rectangle) (obj : CanvasObject) : Option Nat :=
  let objBounds := objWorldBounds obj
  let verticalMidpoint := nodeBounds.x + nodeBounds.width / 2
  let horizontalMidpoint := nodeBounds.y + nodeBounds.height / 2
  let topQuadrant := decide (objBounds.y < horizontalMidpoint)
    && decide (objBounds.y + objBounds.height < horizontalMidpoint)
  let bottomQuadrant := decide (objBounds.y > horizontalMidpoint)
  if decide (objBounds.x < verticalMidpoint)
      && decide (objBounds.x + objBounds.width < verticalMidpoint) then
    if topQuadrant then some 1
    else if bottomQuadrant then some 2
    else none
  else if decide (objBounds.x > verticalMidpoint) then
    if topQuadrant then some 0
    else if bottomQuadrant then some 3
    else none
  else none

/-- Push an object onto a node object list (node.objects.push(obj)). -/
def pushObjNode : QuadTreeNode → CanvasObject → QuadTreeNode
  | .leaf b objs lvl, o => .leaf b (objs ++ [o]) lvl
  | .branch b objs lvl ne nw sw se, o => .branch b (objs ++ [o]) lvl ne nw sw se

/-- State of the redistribution loop of QuadTree.insertObject: the
objects kept at the node so far and the four (possibly updated)
children. -/
structure RedistState where
  kept : List CanvasObject
  ne : QuadTreeNode
  nw : QuadTreeNode
  sw : QuadTreeNode
  se : QuadTreeNode

/-- The while-loop of QuadTree.insertObject that walks the node object
list in order, moving each object whose quadrant index is defined into
that child and keeping the rest at the node. -/
def redistLoop (ins : QuadTreeNode → CanvasObject → QuadTreeNode) (b : Rectangle) :
    List CanvasObject → RedistState → RedistState
  | [], st => st
  | o :: rest, st =>
    match getIndex b o with
    | some 0 => redistLoop ins b rest { st with ne := ins st.ne o }
    | some 1 => redistLoop ins b rest { st with nw := ins st.nw o }
    | some 2 => redistLoop ins b rest { st with sw := ins st.sw o }
    | some 3 => redistLoop ins b rest { st with se := ins st.se o }
    | _ => redistLoop ins b rest { st with kept := st.kept ++ [o] }

/-- Rebuild a branch node from a finished redistribution state. -/
def finishRedist (b : Rectangle) (lvl : Nat) (st : RedistState) : QuadTreeNode :=
  .branch b st.kept lvl st.ne st.nw st.sw st.se

/-- QuadTree.insertObject.  The fuel argument bounds the recursion
depth; the fuel used by QuadTree.insert is maxLevels + 1, which is
never exhausted on trees whose levels grow by one per generation, so
the fuel-zero completion (a plain push) is unreachable there. -/
def insertObject (mo ml : Nat) : Nat → QuadTreeNode → CanvasObject → QuadTreeNode
  | 0, node, obj => pushObjNode node obj
  | fuel + 1, .branch b objs lvl ne nw sw se, obj =>
    match getIndex b obj with
    | some 0 => .branch b objs lvl (insertObject mo ml fuel ne obj) nw sw se
    | some 1 => .branch b objs lvl ne (insertObject mo ml fuel nw obj) sw se
    | some 2 => .branch b objs lvl ne nw (insertObject mo ml fuel sw obj) se
    | some 3 => .branch b objs lvl ne nw sw (insertObject mo ml fuel se obj)
    | _ =>
      if (objs ++ [obj]).length > mo ∧ lvl < ml then
        finishRedist b lvl (redistLoop (fun n o => insertObject mo ml fuel n o) b (objs ++ [obj])
          ⟨[], ne, nw, sw, se⟩)
      else .branch b (objs ++ [obj]) lvl ne nw sw se
  | fuel + 1, .leaf b objs lvl, obj =>
    if (objs ++ [obj]).length > mo ∧ lvl < ml then
      finishRedist b lvl (redistLoop (fun n o => insertObject mo ml fuel n o) b (objs ++ [obj])
        ⟨[], .leaf (neQuadrant b) [] (lvl + 1), .leaf (nwQuadrant b) [] (lvl + 1),
            .leaf (swQuadrant b) [] (lvl + 1), .leaf (seQuadrant b) [] (lvl + 1)⟩)
    else .leaf b (objs ++ [obj]) lvl

/-- QuadTree.retrieveObjects: collect the objects of every node whose
bounds intersect the query, keeping only objects whose world bounds
intersect it. -/
def retrieveObjects : QuadTreeNode → Rectangle → List CanvasObject
  | .leaf b objs _, q =>
    if boundsIntersect b q then
      objs.filter (fun o => boundsIntersect (objWorldBounds o) q)
    else []
  | .branch b objs _ ne nw sw se, q =>
    if boundsIntersect b q then
      objs.filter (fun o => boundsIntersect (objWorldBounds o) q)
        ++ retrieveObjects ne q ++ retrieveObjects nw q
        ++ retrieveObjects sw q ++ retrieveObjects se q
    else []

/-- The QuadTree class: root node plus configuration. -/
structure QuadTree where
  root : QuadTreeNode
  maxObjects : Nat
  maxLevels : Nat

/-- The QuadTree constructor: empty root covering the given bounds. -/
def QuadTree.create (bounds : Rectangle) (maxObjects maxLevels : Nat) : QuadTree :=
  ⟨.leaf bounds [] 0, maxObjects, maxLevels⟩

/-- QuadTree.clear: empty every node object list and drop all children,
leaving the root an empty leaf with its original bounds and level. -/
def QuadTree.clear (t : QuadTree) : QuadTree :=
  ⟨.leaf t.root.boundsOf [] t.root.levelOf, t.maxObjects, t.maxLevels⟩

/-- QuadTree.insert. -/
def QuadTree.insert (t : QuadTree) (obj : CanvasObject) : QuadTree :=
  { t with root := insertObject t.maxObjects t.maxLevels (t.maxLevels + 1) t.root obj }

/-- QuadTree.retrieve. -/
def QuadTree.retrieve (t : QuadTree) (q : Rectangle) : List CanvasObject :=
  retrieveObjects t.root q

/-- QuadTree.rebuild: clear, then insert every visible object in order. -/
def QuadTree.rebuild (t : QuadTree) (objects : List CanvasObject) : QuadTree :=
  objects.foldl (fun acc obj => if obj.visible then acc.insert obj else acc) t.clear

/-! ## Path2D geometry cache (HighPerformanceRenderer.getCachedPath) -/

/-- Model of a Path2D object as the geometry recorded into it. -/
inductive Path2DModel where
  | rect (w h : ℚ)
  | roundRect (w h r : ℚ)
  | ellipse (cx cy rx ry : ℚ)
deriving DecidableEq, Repr

/-- The string form of an ObjectType as interpolated into cache keys. -/
def typeName : ObjectType → String
  | .rectangle => "rectangle"
  | .circle => "circle"
  | .text => "text"
  | .line => "line"

/-- generatePathKey: cache key built from type, bounds width/height and
cornerRadius (with the JavaScript cornerRadius-or-zero default). -/
def generatePathKey (obj : CanvasObject) : String :=
  typeName obj.type ++ "-" ++ toString obj.bounds.width ++ "-"
    ++ toString obj.bounds.height ++ "-" ++ toString (obj.style.cornerRadius.getD 0)

/-- The path constructed on a cache miss: rounded or plain rectangle for
rectangles, ellipse for circles, and none (the uncached null return) for
the other types. -/
def buildPath (obj : CanvasObject) : Option Path2DModel :=
  match obj.type with
  | .rectangle =>
    match obj.style.cornerRadius with
    | some cr =>
      if cr > 0 then
        some (.roundRect obj.bounds.width obj.bounds.height
          (min cr (min (obj.bounds.width / 2) (obj.bounds.height / 2))))
      else some (.rect obj.bounds.width obj.bounds.height)
    | none => some (.rect obj.bounds.width obj.bounds.height)
  | .circle =>
    some (.ellipse (obj.bounds.width / 2) (obj.bounds.height / 2)
      (obj.bounds.width / 2) (obj.bounds.height / 2))
  | _ => none

/-- The Path2D cache state: the Map (as an insertion-ordered
association list) and the pathCacheKeys array. -/
structure PathCacheState where
  cache : List (String × Path2DModel)
  keys : List String
deriving DecidableEq, Repr

/-- The empty cache. -/
def emptyPathCache : PathCacheState := ⟨[], []⟩

/-- getCachedPath of HighPerformanceRenderer: return the cached path on
a hit; on a miss build a path (returning null uncached for text/line),
store it, record its key, and once more than 500 keys are recorded
evict the oldest recorded key. -/
def getCachedPath (s : PathCacheState) (obj : CanvasObject) : Option Path2DModel × PathCacheState :=
  let key := generatePathKey obj
  match s.cache.lookup key with
  | some p => (some p, s)
  | none =>
    match buildPath obj with
    | none => (none, s)
    | some path =>
      let cache1 := s.cache ++ [(key, path)]
      let keys1 := s.keys ++ [key]
      if keys1.length > 500 then
        match keys1 with
        | [] => (some path, ⟨cache1, keys1⟩)
        | oldest :: rest =>
            (some path, ⟨cache1.eraseP (fun kv => kv.1 == oldest), rest⟩)
      else (some path, ⟨cache1, keys1⟩)

/-- Fold a sequence of getCachedPath calls from the empty cache. -/
def runCache (objs : List CanvasObject) : PathCacheState :=
  objs.foldl (fun s o => (getCachedPath s o).2) emptyPathCache

/-- Cache well-formedness: the key queue is duplicate-free and lists
exactly the Map keys in insertion order. -/
def CacheInv (s : PathCacheState) : Prop :=
  s.keys.Nodup ∧ s.cache.map Prod.fst = s.keys

/-! ## Level of detail (renderObject) -/

/-- The three detail tiers. -/
inductive DetailLevel where
  | micro
  | simplified
  | full
deriving DecidableEq, Repr

/-- Numeric rank of a detail tier (micro lowest, full highest). -/
def DetailLevel.rank : DetailLevel → Nat
  | .micro => 0
  | .simplified => 1
  | .full => 2

/-- On-screen size used by renderObject:
max(bounds.width * zoom, bounds.height * zoom). -/
def screenSizeOf (obj : CanvasObject) (zoom : ℚ) : ℚ :=
  max (obj.bounds.width * zoom) (obj.bounds.height * zoom)

/-- Detail tier of AdvancedCanvasRenderer.renderObject: below 2px draw
a single filled rect, below 8px simplified, otherwise full. -/
def detailLevelAdv (obj : CanvasObject) (zoom : ℚ) : DetailLevel :=
  if screenSizeOf obj zoom < 2 then .micro
  else if screenSizeOf obj zoom < 8 then .simplified
  else .full

/-- Detail tier of HighPerformanceRenderer.renderObject: thresholds 3
and 8. -/
def detailLevelHP (obj : CanvasObject) (zoom : ℚ) : DetailLevel :=
  if screenSizeOf obj zoom < 3 then .micro
  else if screenSizeOf obj zoom < 8 then .simplified
  else .full

/-! ## Frame scheduler (AdvancedCanvasRenderer.render) -/

/-- State of the frame scheduler: time of the last executed paint, the
ids of callbacks currently queued with the browser, the id recorded in
renderRequestId, a fresh-id counter, and the times of executed paints. -/
structure SchedState where
  lastRenderTime : ℚ
  pending : List Nat
  renderRequestId : Option Nat
  nextId : Nat
  paints : List ℚ
deriving DecidableEq, Repr

/-- Per-interaction-state frame-time target of
AdvancedCanvasRenderer.render: 6ms dragging, 8ms panning, 12ms idle. -/
def targetFrameTime (isDragging isPanning : Bool) : ℚ :=
  if isDragging then 6 else if isPanning then 8 else 12

/-- One invocation of render at time now: if less than the target
interval has passed since the last paint, cancel the previously
recorded callback (a no-op if it already fired) and queue exactly one
new callback; otherwise paint now. -/
def renderCall (isDragging isPanning : Bool) (now : ℚ) (s : SchedState) : SchedState :=
  if now - s.lastRenderTime < targetFrameTime isDragging isPanning then
    let pending1 :=
      match s.renderRequestId with
      | some i => s.pending.filter (fun j => j != i)
      | none => s.pending
    { s with pending := pending1 ++ [s.nextId],
             renderRequestId := some s.nextId,
             nextId := s.nextId + 1 }
  else
    { s with lastRenderTime := now, paints := s.paints ++ [now] }

/-- External events driving the scheduler: a render request (any input
change) or the browser firing the earliest queued callback. -/
inductive SchedEvent where
  | request (t : ℚ)
  | fire (t : ℚ)
deriving DecidableEq, Repr

/-- One scheduler step.  A fire event dequeues the earliest queued
callback and runs render; with nothing queued it does nothing. -/
def schedStep (isDragging isPanning : Bool) (s : SchedState) : SchedEvent → SchedState
  | .request t => renderCall isDragging isPanning t s
  | .fire t =>
    match s.pending with
    | [] => s
    | _ :: rest => renderCall isDragging isPanning t { s with pending := rest }

/-- Run the scheduler over a list of events. -/
def schedRun (isDragging isPanning : Bool) (s : SchedState) (es : List SchedEvent) : SchedState :=
  es.foldl (schedStep isDragging isPanning) s

/-- Scheduler state right after a paint at time t0 with nothing queued. -/
def initSched (t0 : ℚ) : SchedState :=
  ⟨t0, [], none, 0, []⟩

/-! ## Viewport (useViewport) -/

/-- ViewportState of types/canvas.ts. -/
structure ViewportState where
  x : ℚ
  y : ℚ
  zoom : ℚ
  bounds : Rectangle
deriving DecidableEq, Repr

/-- The non-animated zoom-to-point path of useViewport.zoomTo: clamp the
requested zoom to [0.1, 5] and reposition the pan offset about the given
screen center. -/
def zoomToPoint (v : ViewportState) (zoom centerX centerY : ℚ) : ViewportState :=
  let clampedZoom := max (1 / 10) (min 5 zoom)
  let scaleFactor := clampedZoom / v.zoom
  let newX := centerX - (centerX - v.x) * scaleFactor
  let newY := centerY - (centerY - v.y) * scaleFactor
  { v with x := newX, y := newY, zoom := clampedZoom }

/-- useViewport.screenToWorld. -/
def screenToWorld (v : ViewportState) (screenX screenY : ℚ) : ℚ × ℚ :=
  ((screenX - v.x) / v.zoom, (screenY - v.y) / v.zoom)

/-! ## Visible-object query paths (AdvancedCanvasRenderer.getVisibleObjects) -/

/-- The expanded world-space query rectangle computed by
getVisibleObjects from the viewport, canvas size and interaction
state (margin ratios 0.5 dragging, 0.3 panning, 0.1 idle). -/
def advQueryBounds (v : ViewportState) (rectW rectH : ℚ) (isDragging isPanning : Bool) : Rectangle :=
  let viewLeft := -v.x / v.zoom
  let viewTop := -v.y / v.zoom
  let viewRight := viewLeft + rectW / v.zoom
  let viewBottom := viewTop + rectH / v.zoom
  let marginMultiplier : ℚ := if isDragging then 1 / 2 else if isPanning then 3 / 10 else 1 / 10
  let marginX := (rectW / v.zoom) * marginMultiplier
  let marginY := (rectH / v.zoom) * marginMultiplier
  { x := viewLeft - marginX, y := viewTop - marginY,
    width := (viewRight - viewLeft) + marginX * 2,
    height := (viewBottom - viewTop) + marginY * 2 }

/-- The QuadTree-backed branch of getVisibleObjects (taken when the
object count exceeds 50): retrieve candidates and keep those that are
visible and belong to the snapshot list. -/
def treeQueryPath (t : QuadTree) (objectList : List CanvasObject) (queryBounds : Rectangle) :
    List CanvasObject :=
  (t.retrieve queryBounds).filter (fun o => o.visible && objectList.contains o)

/-- The linear-filter branch of getVisibleObjects (taken for 50 or
fewer objects): keep visible objects whose world bounds overlap the
query rectangle. -/
def linearQueryPath (objectList : List CanvasObject) (queryBounds : Rectangle) :
    List CanvasObject :=
  objectList.filter (fun o =>
    o.visible &&
    !(decide (o.bounds.x + o.transform.x + o.bounds.width < queryBounds.x)
      || decide (o.bounds.x + o.transform.x > queryBounds.x + queryBounds.width)
      || decide (o.bounds.y + o.transform.y + o.bounds.height < queryBounds.y)
      || decide (o.bounds.y + o.transform.y > queryBounds.y + queryBounds.height)))

/-- getVisibleObjects: choose the spatial-index path above 50 objects,
the linear path otherwise. -/
def getVisibleObjects (t : QuadTree) (objectList : List CanvasObject) (queryBounds : Rectangle) :
    List CanvasObject :=
  if objectList.length > 50 then treeQueryPath t objectList queryBounds
  else linearQueryPath objectList queryBounds

/-! ## Draw-list ordering (HighPerformanceRenderer.render) -/

/-- Insert an object into a list sorted by layer, after every element of
strictly smaller layer and before the rest (the placement a stable
ascending sort gives the head of the input). -/
def insertByLayer (x : CanvasObject) : List CanvasObject → List CanvasObject
  | [] => [x]
  | y :: ys => if y.layer < x.layer then y :: insertByLayer x ys else x :: y :: ys

/-- The stable ascending sort by layer applied to the visible list
before painting (JavaScript Array.prototype.sort is stable). -/
def sortByLayer : List CanvasObject → List CanvasObject
  | [] => []
  | x :: xs => insertByLayer x (sortByLayer xs)

/-- The per-frame candidate list of HighPerformanceRenderer: QuadTree
retrieval over the view bounds followed by the visibility filter. -/
def hpVisibleObjects (t : QuadTree) (viewBounds : Rectangle) : List CanvasObject :=
  (t.retrieve viewBounds).filter (fun o => o.visible)

/-! ## List counting helpers -/

theorem count_filter_pos {α : Type} [DecidableEq α] (p : α → Bool) (a : α) (l : List α)
    (h : p a = true) : (l.filter p).count a = l.count a := by
  induction l with
  | nil => rfl
  | cons x xs ih =>
    rw [List.count_cons, List.filter_cons]
    by_cases hx : p x = true
    · rw [if_pos hx, List.count_cons, ih]
    · have hxa : (x == a) = false := by
        rcases hb : x == a with _ | _
        · rfl
        · exact absurd (by rw [eq_of_beq hb]; exact h) hx
      rw [if_neg hx, ih, hxa]
      simp

theorem count_filter_neg {α : Type} [DecidableEq α] (p : α → Bool) (a : α) (l : List α)
    (h : p a = false) : (l.filter p).count a = 0 := by
  induction l with
  | nil => rfl
  | cons x xs ih =>
    rw [List.filter_cons]
    by_cases hx : p x = true
    · have hxa : (x == a) = false := by
        rcases hb : x == a with _ | _
        · rfl
        · rw [eq_of_beq hb] at hx; rw [hx] at h; cases h
      rw [if_pos hx, List.count_cons, ih, hxa]
      simp
    · rw [if_neg hx, ih]

/-! ## QuadTree structural lemmas -/

theorem finishRedist_allObjs (b : Rectangle) (lvl : Nat) (st : RedistState) :
    (finishRedist b lvl st).allObjs
      = st.kept ++ st.ne.allObjs ++ st.nw.allObjs ++ st.sw.allObjs ++ st.se.allObjs := rfl

theorem insertObject_boundsOf (mo ml fuel : Nat) (n : QuadTreeNode) (o : CanvasObject) :
    (insertObject mo ml fuel n o).boundsOf = n.boundsOf := by
  cases fuel with
  | zero => cases n <;> rfl
  | succ fuel =>
    cases n with
    | leaf b objs lvl =>
      rw [insertObject]
      split <;> rfl
    | branch b objs lvl ne nw sw se =>
      rw [insertObject]
      split <;> first | rfl | (split <;> rfl)

theorem insertObject_levelOf (mo ml fuel : Nat) (n : QuadTreeNode) (o : CanvasObject) :
    (insertObject mo ml fuel n o).levelOf = n.levelOf := by
  cases fuel with
  | zero => cases n <;> rfl
  | succ fuel =>
    cases n with
    | leaf b objs lvl =>
      rw [insertObject]
      split <;> rfl
    | branch b objs lvl ne nw sw se =>
      rw [insertObject]
      split <;> first | rfl | (split <;> rfl)

/-- Multiset contribution of a redistribution state. -/
def redistObjs (st : RedistState) : List CanvasObject :=
  st.kept ++ st.ne.allObjs ++ st.nw.allObjs ++ st.sw.allObjs ++ st.se.allObjs

theorem redistLoop_count (ins : QuadTreeNode → CanvasObject → QuadTreeNode)
    (hins : ∀ n o x, ((ins n o).allObjs).count x
      = (n.allObjs).count x + if o = x then 1 else 0)
    (b : Rectangle) :
    ∀ (l : List CanvasObject) (st : RedistState) (x : CanvasObject),
      (redistObjs (redistLoop ins b l st)).count x = l.count x + (redistObjs st).count x := by
  intro l
  induction l with
  | nil => intro st x; simp [redistLoop]
  | cons o rest ih =>
    intro st x
    rw [redistLoop]
    split <;>
      (rw [ih, List.count_cons]
       simp only [redistObjs, List.count_append, hins, List.count_singleton', beq_iff_eq]
       omega)

theorem insertObject_count (mo ml : Nat) :
    ∀ (fuel : Nat) (n : QuadTreeNode) (o x : CanvasObject),
      ((insertObject mo ml fuel n o).allObjs).count x
        = (n.allObjs).count x + if o = x then 1 else 0 := by
  intro fuel
  induction fuel with
  | zero =>
    intro n o x
    cases n <;>
      (simp only [insertObject, pushObjNode, QuadTreeNode.allObjs, List.count_append,
        List.count_singleton']
       try omega)
  | succ fuel ih =>
    intro n o x
    cases n with
    | leaf b objs lvl =>
      rw [insertObject]
      split
      · rw [finishRedist_allObjs]
        have h := redistLoop_count (fun n o => insertObject mo ml fuel n o)
          (fun n o x => ih n o x) b (objs ++ [o])
          ⟨[], .leaf (neQuadrant b) [] (lvl + 1), .leaf (nwQuadrant b) [] (lvl + 1),
              .leaf (swQuadrant b) [] (lvl + 1), .leaf (seQuadrant b) [] (lvl + 1)⟩ x
        simp only [redistObjs] at h
        rw [h]
        simp only [QuadTreeNode.allObjs, List.count_append, List.count_singleton',
          List.count_nil]
        omega
      · simp only [QuadTreeNode.allObjs, List.count_append, List.count_singleton']
    | branch b objs lvl ne nw sw se =>
      rw [insertObject]
      split
      · simp only [QuadTreeNode.allObjs, List.count_append]
        rw [ih]; omega
      · simp only [QuadTreeNode.allObjs, List.count_append]
        rw [ih]; omega
      · simp only [QuadTreeNode.allObjs, List.count_append]
        rw [ih]; omega
      · simp only [QuadTreeNode.allObjs, List.count_append]
        rw [ih]; omega
      · split
        · rw [finishRedist_allObjs]
          have h := redistLoop_count (fun n o => insertObject mo ml fuel n o)
            (fun n o x => ih n o x) b (objs ++ [o]) ⟨[], ne, nw, sw, se⟩ x
          simp only [redistObjs] at h
          rw [h]
          simp only [QuadTreeNode.allObjs, List.count_append, List.count_singleton',
            List.count_nil]
          omega
        · simp only [QuadTreeNode.allObjs, List.count_append, List.count_singleton']
          (try omega)

theorem insertObject_mem (mo ml fuel : Nat) (n : QuadTreeNode) (o x : CanvasObject)
    (h : x ∈ (insertObject mo ml fuel n o).allObjs) : x = o ∨ x ∈ n.allObjs := by
  by_cases hx : x ∈ n.allObjs
  · exact Or.inr hx
  · left
    have hc := insertObject_count mo ml fuel n o x
    have h1 : 0 < ((insertObject mo ml fuel n o).allObjs).count x :=
      List.count_pos_iff.mpr h
    have h2 : (n.allObjs).count x = 0 := List.count_eq_zero.mpr hx
    rw [hc, h2] at h1
    by_cases he : o = x
    · exact he.symm
    · rw [if_neg he] at h1
      simp at h1

/-! ## Geometry of getIndex -/

theorem getIndex_inv (b : Rectangle) (o : CanvasObject) (i : Nat) (h : getIndex b o = some i) :
    (i = 1 ∧ (objWorldBounds o).x < b.x + b.width / 2
       ∧ (objWorldBounds o).x + (objWorldBounds o).width < b.x + b.width / 2
       ∧ (objWorldBounds o).y < b.y + b.height / 2
       ∧ (objWorldBounds o).y + (objWorldBounds o).height < b.y + b.height / 2) ∨
    (i = 2 ∧ (objWorldBounds o).x < b.x + b.width / 2
       ∧ (objWorldBounds o).x + (objWorldBounds o).width < b.x + b.width / 2
       ∧ (objWorldBounds o).y > b.y + b.height / 2) ∨
    (i = 0 ∧ (objWorldBounds o).x > b.x + b.width / 2
       ∧ (objWorldBounds o).y < b.y + b.height / 2
       ∧ (objWorldBounds o).y + (objWorldBounds o).height < b.y + b.height / 2) ∨
    (i = 3 ∧ (objWorldBounds o).x > b.x + b.width / 2
       ∧ (objWorldBounds o).y > b.y + b.height / 2) := by
  simp only [getIndex, Bool.and_eq_true, decide_eq_true_eq] at h
  split_ifs at h with h1 h2 h3 h4 h5 h6 <;> simp_all

theorem getIndex_zero_contains (b : Rectangle) (o : CanvasObject)
    (h : getIndex b o = some 0) (hc : rectContains b (objWorldBounds o)) :
    rectContains (neQuadrant b) (objWorldBounds o) := by
  obtain ⟨c1, c2, c3, c4⟩ := hc
  rcases getIndex_inv b o 0 h with ⟨h1, _⟩ | ⟨h1, _⟩ | ⟨_, hx, hy1, hy2⟩ | ⟨h1, _⟩
  · exact absurd h1 (by decide)
  · exact absurd h1 (by decide)
  · exact ⟨by simp only [neQuadrant]; linarith, by simp only [neQuadrant]; linarith,
      by simp only [neQuadrant]; linarith, by simp only [neQuadrant]; linarith⟩
  · exact absurd h1 (by decide)

theorem getIndex_one_contains (b : Rectangle) (o : CanvasObject)
    (h : getIndex b o = some 1) (hc : rectContains b (objWorldBounds o)) :
    rectContains (nwQuadrant b) (objWorldBounds o) := by
  obtain ⟨c1, c2, c3, c4⟩ := hc
  rcases getIndex_inv b o 1 h with ⟨_, hx1, hx2, hy1, hy2⟩ | ⟨h1, _⟩ | ⟨h1, _⟩ | ⟨h1, _⟩
  · exact ⟨by simp only [nwQuadrant]; linarith, by simp only [nwQuadrant]; linarith,
      by simp only [nwQuadrant]; linarith, by simp only [nwQuadrant]; linarith⟩
  · exact absurd h1 (by decide)
  · exact absurd h1 (by decide)
  · exact absurd h1 (by decide)

theorem getIndex_two_contains (b : Rectangle) (o : CanvasObject)
    (h : getIndex b o = some 2) (hc : rectContains b (objWorldBounds o)) :
    rectContains (swQuadrant b) (objWorldBounds o) := by
  obtain ⟨c1, c2, c3, c4⟩ := hc
  rcases getIndex_inv b o 2 h with ⟨h1, _⟩ | ⟨_, hx1, hx2, hy⟩ | ⟨h1, _⟩ | ⟨h1, _⟩
  · exact absurd h1 (by decide)
  · exact ⟨by simp only [swQuadrant]; linarith, by simp only [swQuadrant]; linarith,
      by simp only [swQuadrant]; linarith, by simp only [swQuadrant]; linarith⟩
  · exact absurd h1 (by decide)
  · exact absurd h1 (by decide)

theorem getIndex_three_contains (b : Rectangle) (o : CanvasObject)
    (h : getIndex b o = some 3) (hc : rectContains b (objWorldBounds o)) :
    rectContains (seQuadrant b) (objWorldBounds o) := by
  obtain ⟨c1, c2, c3, c4⟩ := hc
  rcases getIndex_inv b o 3 h with ⟨h1, _⟩ | ⟨h1, _⟩ | ⟨h1, _⟩ | ⟨_, hx, hy⟩
  · exact absurd h1 (by decide)
  · exact absurd h1 (by decide)
  · exact absurd h1 (by decide)
  · exact ⟨by simp only [seQuadrant]; linarith, by simp only [seQuadrant]; linarith,
      by simp only [seQuadrant]; linarith, by simp only [seQuadrant]; linarith⟩

theorem boundsIntersect_of_contains (outer w q : Rectangle)
    (hc : rectContains outer w) (hi : boundsIntersect w q = true) :
    boundsIntersect outer q = true := by
  rw [boundsIntersect_iff] at hi ⊢
  obtain ⟨c1, c2, c3, c4⟩ := hc
  obtain ⟨i1, i2, i3, i4⟩ := hi
  exact ⟨by linarith, by linarith, by linarith, by linarith⟩

/-! ## Placement invariant of the QuadTree -/

/-- Well-formedness of a tree node: every branch has the four equal
quadrants of its own rectangle as child bounds, and any object stored
in a child subtree whose world bounds fit in the node rectangle also
fits in that child quadrant. -/
def NodeWF : QuadTreeNode → Prop
  | .leaf _ _ _ => True
  | .branch b _ _ ne nw sw se =>
    ne.boundsOf = neQuadrant b ∧ nw.boundsOf = nwQuadrant b ∧
    sw.boundsOf = swQuadrant b ∧ se.boundsOf = seQuadrant b ∧
    (∀ z ∈ ne.allObjs, rectContains b (objWorldBounds z) →
      rectContains (neQuadrant b) (objWorldBounds z)) ∧
    (∀ z ∈ nw.allObjs, rectContains b (objWorldBounds z) →
      rectContains (nwQuadrant b) (objWorldBounds z)) ∧
    (∀ z ∈ sw.allObjs, rectContains b (objWorldBounds z) →
      rectContains (swQuadrant b) (objWorldBounds z)) ∧
    (∀ z ∈ se.allObjs, rectContains b (objWorldBounds z) →
      rectContains (seQuadrant b) (objWorldBounds z)) ∧
    NodeWF ne ∧ NodeWF nw ∧ NodeWF sw ∧ NodeWF se

/-- The redistribution-state counterpart of NodeWF. -/
def RedistInv (b : Rectangle) (st : RedistState) : Prop :=
  st.ne.boundsOf = neQuadrant b ∧ st.nw.boundsOf = nwQuadrant b ∧
  st.sw.boundsOf = swQuadrant b ∧ st.se.boundsOf = seQuadrant b ∧
  (∀ z ∈ st.ne.allObjs, rectContains b (objWorldBounds z) →
    rectContains (neQuadrant b) (objWorldBounds z)) ∧
  (∀ z ∈ st.nw.allObjs, rectContains b (objWorldBounds z) →
    rectContains (nwQuadrant b) (objWorldBounds z)) ∧
  (∀ z ∈ st.sw.allObjs, rectContains b (objWorldBounds z) →
    rectContains (swQuadrant b) (objWorldBounds z)) ∧
  (∀ z ∈ st.se.allObjs, rectContains b (objWorldBounds z) →
    rectContains (seQuadrant b) (objWorldBounds z)) ∧
  NodeWF st.ne ∧ NodeWF st.nw ∧ NodeWF st.sw ∧ NodeWF st.se

theorem nodeWF_finishRedist (b : Rectangle) (lvl : Nat) (st : RedistState)
    (h : RedistInv b st) : NodeWF (finishRedist b lvl st) := by
  obtain ⟨h1, h2, h3, h4, h5, h6, h7, h8, h9, h10, h11, h12⟩ := h
  exact ⟨h1, h2, h3, h4, h5, h6, h7, h8, h9, h10, h11, h12⟩

theorem redistLoop_inv (ins : QuadTreeNode → CanvasObject → QuadTreeNode)
    (hb : ∀ n o, (ins n o).boundsOf = n.boundsOf)
    (hwf : ∀ n o, NodeWF n → NodeWF (ins n o))
    (hmem : ∀ n o x, x ∈ (ins n o).allObjs → x = o ∨ x ∈ n.allObjs)
    (b : Rectangle) :
    ∀ (l : List CanvasObject) (st : RedistState),
      RedistInv b st → RedistInv b (redistLoop ins b l st) := by
  intro l
  induction l with
  | nil => intro st h; rw [redistLoop]; exact h
  | cons o rest ih =>
    intro st hst
    obtain ⟨h1, h2, h3, h4, h5, h6, h7, h8, h9, h10, h11, h12⟩ := hst
    rw [redistLoop]
    split
    case h_1 hidx =>
      apply ih
      refine ⟨by rw [hb]; exact h1, h2, h3, h4, ?_, h6, h7, h8, hwf _ _ h9, h10, h11, h12⟩
      intro z hz hcz
      rcases hmem _ _ _ hz with rfl | hz2
      · exact getIndex_zero_contains b z hidx hcz
      · exact h5 z hz2 hcz
    case h_2 hidx =>
      apply ih
      refine ⟨h1, by rw [hb]; exact h2, h3, h4, h5, ?_, h7, h8, h9, hwf _ _ h10, h11, h12⟩
      intro z hz hcz
      rcases hmem _ _ _ hz with rfl | hz2
      · exact getIndex_one_contains b z hidx hcz
      · exact h6 z hz2 hcz
    case h_3 hidx =>
      apply ih
      refine ⟨h1, h2, by rw [hb]; exact h3, h4, h5, h6, ?_, h8, h9, h10, hwf _ _ h11, h12⟩
      intro z hz hcz
      rcases hmem _ _ _ hz with rfl | hz2
      · exact getIndex_two_contains b z hidx hcz
      · exact h7 z hz2 hcz
    case h_4 hidx =>
      apply ih
      refine ⟨h1, h2, h3, by rw [hb]; exact h4, h5, h6, h7, ?_, h9, h10, h11, hwf _ _ h12⟩
      intro z hz hcz
      rcases hmem _ _ _ hz with rfl | hz2
      · exact getIndex_three_contains b z hidx hcz
      · exact h8 z hz2 hcz
    case h_5 =>
      apply ih
      exact ⟨h1, h2, h3, h4, h5, h6, h7, h8, h9, h10, h11, h12⟩

theorem insertObject_wf (mo ml : Nat) :
    ∀ (fuel : Nat) (n : QuadTreeNode) (o : CanvasObject),
      NodeWF n → NodeWF (insertObject mo ml fuel n o) := by
  intro fuel
  induction fuel with
  | zero =>
    intro n o h
    cases n with
    | leaf b objs lvl => trivial
    | branch b objs lvl ne nw sw se => exact h
  | succ fuel ih =>
    intro n o h
    cases n with
    | leaf b objs lvl =>
      rw [insertObject]
      split
      · apply nodeWF_finishRedist
        apply redistLoop_inv _ (insertObject_boundsOf mo ml fuel) ih
          (insertObject_mem mo ml fuel)
        refine ⟨rfl, rfl, rfl, rfl, ?_, ?_, ?_, ?_, trivial, trivial, trivial, trivial⟩ <;>
          (intro z hz; cases hz)
      · trivial
    | branch b objs lvl ne nw sw se =>
      obtain ⟨h1, h2, h3, h4, h5, h6, h7, h8, h9, h10, h11, h12⟩ := h
      rw [insertObject]
      split
      case h_1 hidx =>
        refine ⟨by rw [insertObject_boundsOf]; exact h1, h2, h3, h4, ?_, h6, h7, h8,
          ih _ _ h9, h10, h11, h12⟩
        intro z hz hcz
        rcases insertObject_mem mo ml fuel ne o z hz with rfl | hz2
        · exact getIndex_zero_contains b z hidx hcz
        · exact h5 z hz2 hcz
      case h_2 hidx =>
        refine ⟨h1, by rw [insertObject_boundsOf]; exact h2, h3, h4, h5, ?_, h7, h8,
          h9, ih _ _ h10, h11, h12⟩
        intro z hz hcz
        rcases insertObject_mem mo ml fuel nw o z hz with rfl | hz2
        · exact getIndex_one_contains b z hidx hcz
        · exact h6 z hz2 hcz
      case h_3 hidx =>
        refine ⟨h1, h2, by rw [insertObject_boundsOf]; exact h3, h4, h5, h6, ?_, h8,
          h9, h10, ih _ _ h11, h12⟩
        intro z hz hcz
        rcases insertObject_mem mo ml fuel sw o z hz with rfl | hz2
        · exact getIndex_two_contains b z hidx hcz
        · exact h7 z hz2 hcz
      case h_4 hidx =>
        refine ⟨h1, h2, h3, by rw [insertObject_boundsOf]; exact h4, h5, h6, h7, ?_,
          h9, h10, h11, ih _ _ h12⟩
        intro z hz hcz
        rcases insertObject_mem mo ml fuel se o z hz with rfl | hz2
        · exact getIndex_three_contains b z hidx hcz
        · exact h8 z hz2 hcz
      case h_5 =>
        split
        · apply nodeWF_finishRedist
          apply redistLoop_inv _ (insertObject_boundsOf mo ml fuel) ih
            (insertObject_mem mo ml fuel)
          exact ⟨h1, h2, h3, h4, h5, h6, h7, h8, h9, h10, h11, h12⟩
        · exact ⟨h1, h2, h3, h4, h5, h6, h7, h8, h9, h10, h11, h12⟩

/-! ## Retrieval soundness and completeness -/

theorem count_filter_le {α : Type} [DecidableEq α] (p : α → Bool) (a : α) (l : List α) :
    (l.filter p).count a ≤ l.count a := by
  by_cases hp : p a = true
  · rw [count_filter_pos p a l hp]
  · rw [count_filter_neg p a l (by rwa [Bool.not_eq_true] at hp)]
    exact Nat.zero_le _

theorem retrieve_count_le : ∀ (n : QuadTreeNode) (q : Rectangle) (x : CanvasObject),
    (retrieveObjects n q).count x ≤ (n.allObjs).count x := by
  intro n
  induction n with
  | leaf b objs lvl =>
    intro q x
    rw [retrieveObjects]
    split
    · exact count_filter_le _ _ _
    · exact Nat.zero_le _
  | branch b objs lvl ne nw sw se ihne ihnw ihsw ihse =>
    intro q x
    rw [retrieveObjects, QuadTreeNode.allObjs]
    split
    · simp only [List.count_append]
      have h0 := count_filter_le (fun o => boundsIntersect (objWorldBounds o) q) x objs
      have hne := ihne q x
      have hnw := ihnw q x
      have hsw := ihsw q x
      have hse := ihse q x
      omega
    · exact Nat.zero_le _

theorem retrieve_count_zero : ∀ (n : QuadTreeNode) (q : Rectangle) (x : CanvasObject),
    boundsIntersect (objWorldBounds x) q = false → (retrieveObjects n q).count x = 0 := by
  intro n
  induction n with
  | leaf b objs lvl =>
    intro q x h
    rw [retrieveObjects]
    split
    · exact count_filter_neg _ _ _ h
    · rfl
  | branch b objs lvl ne nw sw se ihne ihnw ihsw ihse =>
    intro q x h
    rw [retrieveObjects]
    split
    · simp only [List.count_append]
      rw [count_filter_neg (fun o => boundsIntersect (objWorldBounds o) q) x objs h,
        ihne q x h, ihnw q x h, ihsw q x h, ihse q x h]
    · rfl

theorem retrieve_count_complete : ∀ (n : QuadTreeNode), NodeWF n →
    ∀ (q : Rectangle) (x : CanvasObject),
      rectContains n.boundsOf (objWorldBounds x) →
      boundsIntersect (objWorldBounds x) q = true →
      (retrieveObjects n q).count x = (n.allObjs).count x := by
  intro n
  induction n with
  | leaf b objs lvl =>
    intro _ q x hc hq
    rw [retrieveObjects, QuadTreeNode.allObjs,
      if_pos (boundsIntersect_of_contains b (objWorldBounds x) q hc hq)]
    exact count_filter_pos (fun o => boundsIntersect (objWorldBounds o) q) x objs hq
  | branch b objs lvl ne nw sw se ihne ihnw ihsw ihse =>
    intro hwf q x hc hq
    obtain ⟨h1, h2, h3, h4, h5, h6, h7, h8, h9, h10, h11, h12⟩ := hwf
    rw [retrieveObjects, QuadTreeNode.allObjs,
      if_pos (boundsIntersect_of_contains b (objWorldBounds x) q hc hq)]
    simp only [List.count_append]
    rw [count_filter_pos (fun o => boundsIntersect (objWorldBounds o) q) x objs hq]
    have hne : (retrieveObjects ne q).count x = (ne.allObjs).count x := by
      by_cases hmem : x ∈ ne.allObjs
      · exact ihne h9 q x (h1 ▸ h5 x hmem hc) hq
      · have hz : (ne.allObjs).count x = 0 := List.count_eq_zero.mpr hmem
        have hle := retrieve_count_le ne q x
        omega
    have hnw : (retrieveObjects nw q).count x = (nw.allObjs).count x := by
      by_cases hmem : x ∈ nw.allObjs
      · exact ihnw h10 q x (h2 ▸ h6 x hmem hc) hq
      · have hz : (nw.allObjs).count x = 0 := List.count_eq_zero.mpr hmem
        have hle := retrieve_count_le nw q x
        omega
    have hsw : (retrieveObjects sw q).count x = (sw.allObjs).count x := by
      by_cases hmem : x ∈ sw.allObjs
      · exact ihsw h11 q x (h3 ▸ h7 x hmem hc) hq
      · have hz : (sw.allObjs).count x = 0 := List.count_eq_zero.mpr hmem
        have hle := retrieve_count_le sw q x
        omega
    have hse : (retrieveObjects se q).count x = (se.allObjs).count x := by
      by_cases hmem : x ∈ se.allObjs
      · exact ihse h12 q x (h4 ▸ h8 x hmem hc) hq
      · have hz : (se.allObjs).count x = 0 := List.count_eq_zero.mpr hmem
        have hle := retrieve_count_le se q x
        omega
    omega

/-! ## Rebuild -/

theorem rebuild_fold_count :
    ∀ (objs : List CanvasObject) (acc : QuadTree) (x : CanvasObject),
      ((objs.foldl (fun a o => if o.visible then a.insert o else a) acc).root.allObjs).count x
        = (objs.filter (fun o => o.visible)).count x + (acc.root.allObjs).count x := by
  intro objs
  induction objs with
  | nil => intro acc x; simp
  | cons o rest ih =>
    intro acc x
    rw [List.foldl_cons, List.filter_cons]
    by_cases hv : o.visible = true
    · rw [if_pos hv, if_pos hv, ih, List.count_cons]
      have hins : ((acc.insert o).root.allObjs).count x
          = (acc.root.allObjs).count x + if o = x then 1 else 0 :=
        insertObject_count acc.maxObjects acc.maxLevels (acc.maxLevels + 1) acc.root o x
      rw [hins]
      simp only [beq_iff_eq]
      omega
    · rw [if_neg hv, if_neg hv, ih]

theorem rebuild_count (t : QuadTree) (objs : List CanvasObject) (x : CanvasObject) :
    ((t.rebuild objs).root.allObjs).count x = (objs.filter (fun o => o.visible)).count x := by
  rw [QuadTree.rebuild, rebuild_fold_count]
  simp [QuadTree.clear, QuadTreeNode.allObjs]

theorem rebuild_wf (t : QuadTree) (objs : List CanvasObject) : NodeWF (t.rebuild objs).root := by
  rw [QuadTree.rebuild]
  have key : ∀ (l : List CanvasObject) (acc : QuadTree), NodeWF acc.root →
      NodeWF ((l.foldl (fun a o => if o.visible then a.insert o else a) acc).root) := by
    intro l
    induction l with
    | nil => intro acc h; exact h
    | cons o rest ih =>
      intro acc h
      rw [List.foldl_cons]
      by_cases hv : o.visible = true
      · rw [if_pos hv]
        exact ih _ (insertObject_wf acc.maxObjects acc.maxLevels (acc.maxLevels + 1) acc.root o h)
      · rw [if_neg hv]
        exact ih _ h
  exact key objs t.clear trivial

theorem rebuild_boundsOf (t : QuadTree) (objs : List CanvasObject) :
    (t.rebuild objs).root.boundsOf = t.root.boundsOf := by
  rw [QuadTree.rebuild]
  have key : ∀ (l : List CanvasObject) (acc : QuadTree),
      ((l.foldl (fun a o => if o.visible then a.insert o else a) acc).root).boundsOf
        = acc.root.boundsOf := by
    intro l
    induction l with
    | nil => intro acc; rfl
    | cons o rest ih =>
      intro acc
      rw [List.foldl_cons]
      by_cases hv : o.visible = true
      · rw [if_pos hv, ih]
        exact insertObject_boundsOf acc.maxObjects acc.maxLevels (acc.maxLevels + 1) acc.root o
      · rw [if_neg hv, ih]
  rw [key]
  rfl

/-- The brute-force O(n) reference filter of the spec: every visible
object whose world bounds intersect the query rectangle, in snapshot
order. -/
def bruteForceQuery (objs : List CanvasObject) (q : Rectangle) : List CanvasObject :=
  objs.filter (fun o => o.visible && boundsIntersect (objWorldBounds o) q)

theorem rebuild_retrieve_count (t : QuadTree) (objs : List CanvasObject) (q : Rectangle)
    (hin : ∀ o ∈ objs, o.visible = true → rectContains t.root.boundsOf (objWorldBounds o))
    (x : CanvasObject) :
    ((t.rebuild objs).retrieve q).count x = (bruteForceQuery objs q).count x := by
  unfold bruteForceQuery QuadTree.retrieve
  by_cases hv : x.visible = true
  · by_cases hq : boundsIntersect (objWorldBounds x) q = true
    · by_cases hmem : x ∈ objs
      · have hc := hin x hmem hv
        rw [← rebuild_boundsOf t objs] at hc
        rw [retrieve_count_complete (t.rebuild objs).root (rebuild_wf t objs) q x hc hq,
          rebuild_count, count_filter_pos (fun o => o.visible) x objs hv,
          count_filter_pos (fun o => o.visible && boundsIntersect (objWorldBounds o) q)
            x objs (by simp [hv, hq])]
      · have h0 : objs.count x = 0 := List.count_eq_zero.mpr hmem
        have hr := retrieve_count_le (t.rebuild objs).root q x
        rw [rebuild_count] at hr
        have hf := count_filter_le (fun o => o.visible) x objs
        have hbf := count_filter_le
          (fun o => o.visible && boundsIntersect (objWorldBounds o) q) x objs
        omega
    · rw [retrieve_count_zero _ _ _ (by rwa [Bool.not_eq_true] at hq)]
      rw [count_filter_neg (fun o => o.visible && boundsIntersect (objWorldBounds o) q)
        x objs (by rw [Bool.not_eq_true] at hq; simp [hq])]
  · rw [Bool.not_eq_true] at hv
    have h1 : (objs.filter (fun o => o.visible)).count x = 0 :=
      count_filter_neg (fun o => o.visible) x objs hv
    have h2 := retrieve_count_le (t.rebuild objs).root q x
    rw [rebuild_count] at h2
    have h3 : (objs.filter
        (fun o => o.visible && boundsIntersect (objWorldBounds o) q)).count x = 0 :=
      count_filter_neg (fun o => o.visible && boundsIntersect (objWorldBounds o) q)
        x objs (by simp [hv])
    omega

/-! ## Concrete scenario material -/

/-- A plain opaque style with no stroke, used by concrete test objects. -/
def plainStyle : ObjectStyle :=
  ⟨"#000000", "transparent", 0, 1, none, none, none, none⟩

/-- A visible axis-aligned rectangle object with identity transform. -/
def mkRectObj (i : String) (px py w h layer : ℚ) : CanvasObject :=
  ⟨i, .rectangle, ⟨px, py, w, h⟩, plainStyle, ⟨0, 0, 0, 1, 1⟩, layer, true, false, false,
    none, none⟩

/-- An invisible rectangle object. -/
def mkHiddenObj (i : String) (px py w h layer : ℚ) : CanvasObject :=
  ⟨i, .rectangle, ⟨px, py, w, h⟩, plainStyle, ⟨0, 0, 0, 1, 1⟩, layer, false, false, false,
    none, none⟩

/-- The world rectangle AdvancedCanvasRenderer gives its QuadTree. -/
def advTreeBounds : Rectangle := ⟨-10000, -10000, 20000, 20000⟩

/-- The QuadTree instance of AdvancedCanvasRenderer (maxObjects 8,
maxLevels 12). -/
def advQuadTree : QuadTree := QuadTree.create advTreeBounds 8 12

/-- The world rectangle HighPerformanceRenderer gives its QuadTree. -/
def hpTreeBounds : Rectangle := ⟨-20000, -20000, 40000, 40000⟩

/-- The QuadTree instance of HighPerformanceRenderer. -/
def hpQuadTree : QuadTree := QuadTree.create hpTreeBounds 8 12

/-- A visible object lying entirely outside the index world bounds. -/
def farObj : CanvasObject := mkRectObj "far" 50000 50000 10 10 0

/-- A query rectangle around farObj, disjoint from the index world
bounds. -/
def farQuery : Rectangle := ⟨49000, 49000, 3000, 3000⟩

/-! ## C1: index correctness against the brute-force filter -/

/-- C1 counterexample: with the AdvancedCanvasRenderer tree, a single
visible object outside the index world bounds is stored by rebuild but
missed by retrieve on a query rectangle that overlaps the object: the
brute-force reference filter returns the object while retrieve returns
nothing, so retrieve does not match the linear filter for every object
set and query rectangle. -/
theorem C1_counterexample :
    (advQuadTree.rebuild [farObj]).retrieve farQuery = []
    ∧ bruteForceQuery [farObj] farQuery = [farObj] := by
  constructor
  · decide
  · decide

/-- C1 (amended): for every object set whose visible members have
world bounds inside the index root rectangle and every query
rectangle, retrieve after rebuild returns exactly the visible objects
whose world bounds intersect the query, as a permutation of the
brute-force linear filter, with no duplicates when the input has
none. -/
theorem C1_retrieve_matches_bruteforce (t : QuadTree) (objs : List CanvasObject) (q : Rectangle)
    (hin : ∀ o ∈ objs, o.visible = true → rectContains t.root.boundsOf (objWorldBounds o)) :
    ((t.rebuild objs).retrieve q).Perm (bruteForceQuery objs q)
    ∧ (objs.Nodup → ((t.rebuild objs).retrieve q).Nodup) := by
  have hperm : ((t.rebuild objs).retrieve q).Perm (bruteForceQuery objs q) :=
    List.perm_iff_count.mpr (fun x => rebuild_retrieve_count t objs q hin x)
  exact ⟨hperm, fun hnd => hperm.symm.nodup (hnd.filter _)⟩

/-- Witness for C1: a contained object is retrieved exactly as the
brute-force filter says. -/
theorem C1_retrieve_matches_bruteforce_witness :
    ((advQuadTree.rebuild [mkRectObj "a" 0 0 50 50 0]).retrieve ⟨0, 0, 100, 100⟩).Perm
      (bruteForceQuery [mkRectObj "a" 0 0 50 50 0] ⟨0, 0, 100, 100⟩)
    ∧ ([mkRectObj "a" 0 0 50 50 0].Nodup →
        ((advQuadTree.rebuild [mkRectObj "a" 0 0 50 50 0]).retrieve ⟨0, 0, 100, 100⟩).Nodup) :=
  C1_retrieve_matches_bruteforce advQuadTree [mkRectObj "a" 0 0 50 50 0] ⟨0, 0, 100, 100⟩
    (by decide)

/-! ## C7: insertion and split invariants -/

/-- Objects of the southeast child of a branch (root rectangle for a
leaf, so the function is total). -/
def QuadTreeNode.seChildObjects : QuadTreeNode → List CanvasObject
  | .leaf _ _ _ => []
  | .branch _ _ _ _ _ _ se => se.objectsOf

/-- Bounds of the southeast child of a branch (own bounds for a leaf). -/
def QuadTreeNode.seChildBounds : QuadTreeNode → Rectangle
  | .leaf b _ _ => b
  | .branch _ _ _ _ _ _ se => se.boundsOf

/-- Eight small filler objects inside the northwest quadrant of the
AdvancedCanvasRenderer tree. -/
def c7Fillers : List CanvasObject :=
  (List.range 8).map (fun i => mkRectObj (toString i) (-5000 + 10 * (i : ℚ)) (-5000) 10 10 0)

/-- A wide object that starts right of the vertical midline but
extends far beyond the node rectangle. -/
def wideObj : CanvasObject := mkRectObj "wide" 100 100 20000 10 0

/-- The nine objects that make the root split and push wideObj into the
southeast child. -/
def c7Objs : List CanvasObject := c7Fillers ++ [wideObj]

/-- C7 counterexample: rebuilding with nine objects splits the root and
pushes wideObj into the southeast child even though its world bounds do
not fit inside that quadrant, refuting the claim that an object is
pushed into a child only if its bounds fit entirely within the
quadrant. -/
theorem C7_counterexample :
    wideObj ∈ (advQuadTree.rebuild c7Objs).root.seChildObjects
    ∧ ¬ rectContains ((advQuadTree.rebuild c7Objs).root.seChildBounds)
        (objWorldBounds wideObj) := by
  constructor
  · decide
  · decide

theorem redistLoop_children_boundsOf (ins : QuadTreeNode → CanvasObject → QuadTreeNode)
    (hb : ∀ n o, (ins n o).boundsOf = n.boundsOf) (b : Rectangle) :
    ∀ (l : List CanvasObject) (st : RedistState),
      (redistLoop ins b l st).ne.boundsOf = st.ne.boundsOf
      ∧ (redistLoop ins b l st).nw.boundsOf = st.nw.boundsOf
      ∧ (redistLoop ins b l st).sw.boundsOf = st.sw.boundsOf
      ∧ (redistLoop ins b l st).se.boundsOf = st.se.boundsOf := by
  intro l
  induction l with
  | nil => intro st; rw [redistLoop]; exact ⟨rfl, rfl, rfl, rfl⟩
  | cons o rest ih =>
    intro st
    rw [redistLoop]
    split
    · obtain ⟨k1, k2, k3, k4⟩ := ih { st with ne := ins st.ne o }
      exact ⟨by rw [k1, hb], k2, k3, k4⟩
    · obtain ⟨k1, k2, k3, k4⟩ := ih { st with nw := ins st.nw o }
      exact ⟨k1, by rw [k2, hb], k3, k4⟩
    · obtain ⟨k1, k2, k3, k4⟩ := ih { st with sw := ins st.sw o }
      exact ⟨k1, k2, by rw [k3, hb], k4⟩
    · obtain ⟨k1, k2, k3, k4⟩ := ih { st with se := ins st.se o }
      exact ⟨k1, k2, k3, by rw [k4, hb]⟩
    · exact ih { st with kept := st.kept ++ [o] }

/-- C7 (amended): (1) every tree produced by rebuild is well-formed:
each branch has exactly four children whose bounds are the four equal
quadrants of its rectangle, and an object whose world bounds fit in a
node rectangle lives in a child subtree only if it fits entirely in
that child quadrant; (2) a leaf at or beyond the maximum depth accepts
any object without splitting; (3) a leaf whose object count stays at or
below the threshold does not split; (4) a leaf that exceeds the
threshold below the maximum depth splits into a branch whose children
partition its rectangle into the four equal quadrants. -/
theorem C7_insert_invariants (t : QuadTree) (objs : List CanvasObject)
    (mo ml fuel : Nat) (b : Rectangle) (nodeObjs : List CanvasObject) (lvl : Nat)
    (o : CanvasObject) :
    NodeWF (t.rebuild objs).root
    ∧ (ml ≤ lvl →
        insertObject mo ml fuel (.leaf b nodeObjs lvl) o = .leaf b (nodeObjs ++ [o]) lvl)
    ∧ ((nodeObjs ++ [o]).length ≤ mo →
        insertObject mo ml fuel (.leaf b nodeObjs lvl) o = .leaf b (nodeObjs ++ [o]) lvl)
    ∧ ((nodeObjs ++ [o]).length > mo → lvl < ml → 0 < fuel →
        ∃ kept ne nw sw se,
          insertObject mo ml fuel (.leaf b nodeObjs lvl) o = .branch b kept lvl ne nw sw se
          ∧ ne.boundsOf = neQuadrant b ∧ nw.boundsOf = nwQuadrant b
          ∧ sw.boundsOf = swQuadrant b ∧ se.boundsOf = seQuadrant b) := by
  refine ⟨rebuild_wf t objs, ?_, ?_, ?_⟩
  · intro hml
    cases fuel with
    | zero => rfl
    | succ fuel =>
      rw [insertObject, if_neg]
      intro hcond
      omega
  · intro hlen
    cases fuel with
    | zero => rfl
    | succ fuel =>
      rw [insertObject, if_neg]
      intro hcond
      omega
  · intro hlen hml hfuel
    cases fuel with
    | zero => omega
    | succ fuel =>
      rw [insertObject, if_pos ⟨hlen, hml⟩]
      obtain ⟨k1, k2, k3, k4⟩ := redistLoop_children_boundsOf
        (fun n o => insertObject mo ml fuel n o) (insertObject_boundsOf mo ml fuel) b
        (nodeObjs ++ [o])
        ⟨[], .leaf (neQuadrant b) [] (lvl + 1), .leaf (nwQuadrant b) [] (lvl + 1),
            .leaf (swQuadrant b) [] (lvl + 1), .leaf (seQuadrant b) [] (lvl + 1)⟩
      exact ⟨_, _, _, _, _, rfl, k1, k2, k3, k4⟩

/-- Witness for C7: at the maximum depth a full leaf takes a ninth
object without splitting, and below the maximum depth a ninth object
makes the node split into the four equal quadrants. -/
theorem C7_insert_invariants_witness :
    insertObject 8 12 1 (.leaf advTreeBounds c7Fillers 12) wideObj
      = .leaf advTreeBounds (c7Fillers ++ [wideObj]) 12
    ∧ ∃ kept ne nw sw se,
        insertObject 8 12 1 (.leaf advTreeBounds c7Fillers 0) wideObj
          = .branch advTreeBounds kept 0 ne nw sw se
        ∧ ne.boundsOf = neQuadrant advTreeBounds ∧ nw.boundsOf = nwQuadrant advTreeBounds
        ∧ sw.boundsOf = swQuadrant advTreeBounds ∧ se.boundsOf = seQuadrant advTreeBounds := by
  constructor
  · exact (C7_insert_invariants advQuadTree [] 8 12 1 advTreeBounds c7Fillers 12
      wideObj).2.1 (by decide)
  · exact (C7_insert_invariants advQuadTree [] 8 12 1 advTreeBounds c7Fillers 0
      wideObj).2.2.2 (by decide) (by decide) (by decide)

/-! ## C8: degenerate bounds are stored and queried safely -/

/-- C8: inserting an object with zero or negative width or height
completes and stores the object at some node of the tree, and
subsequent retrieve calls are well-defined and never return an object
more often than it is stored. -/
theorem C8_degenerate_insert_total (t : QuadTree) (o : CanvasObject)
    (_hdeg : o.bounds.width ≤ 0 ∨ o.bounds.height ≤ 0) :
    o ∈ (t.insert o).root.allObjs
    ∧ ∀ (q : Rectangle) (x : CanvasObject),
        ((t.insert o).retrieve q).count x ≤ ((t.insert o).root.allObjs).count x := by
  constructor
  · have hc := insertObject_count t.maxObjects t.maxLevels (t.maxLevels + 1) t.root o o
    rw [if_pos rfl] at hc
    apply List.count_pos_iff.mp
    rw [QuadTree.insert]
    rw [hc]
    omega
  · intro q x
    exact retrieve_count_le _ q x

/-- Witness for C8: a zero-width object is stored by insert. -/
theorem C8_degenerate_insert_total_witness :
    mkRectObj "deg" 3 3 0 (-5) 0 ∈ (advQuadTree.insert (mkRectObj "deg" 3 3 0 (-5) 0)).root.allObjs
    ∧ ∀ (q : Rectangle) (x : CanvasObject),
        ((advQuadTree.insert (mkRectObj "deg" 3 3 0 (-5) 0)).retrieve q).count x
          ≤ ((advQuadTree.insert (mkRectObj "deg" 3 3 0 (-5) 0)).root.allObjs).count x :=
  C8_degenerate_insert_total advQuadTree (mkRectObj "deg" 3 3 0 (-5) 0) (by decide)

/-! ## C5: spatial-index path versus linear path -/

theorem linearPred_eq (o : CanvasObject) (q : Rectangle) :
    (!(decide (o.bounds.x + o.transform.x + o.bounds.width < q.x)
      || decide (o.bounds.x + o.transform.x > q.x + q.width)
      || decide (o.bounds.y + o.transform.y + o.bounds.height < q.y)
      || decide (o.bounds.y + o.transform.y > q.y + q.height)))
    = boundsIntersect (objWorldBounds o) q := by
  by_cases h1 : o.bounds.x + o.transform.x + o.bounds.width < q.x <;>
  by_cases h2 : o.bounds.x + o.transform.x > q.x + q.width <;>
  by_cases h3 : o.bounds.y + o.transform.y + o.bounds.height < q.y <;>
  by_cases h4 : o.bounds.y + o.transform.y > q.y + q.height <;>
    simp [boundsIntersect, objWorldBounds, h1, h2, h3, h4]

/-- Fifty hidden objects plus one visible object outside the index
world bounds: fifty-one objects, so getVisibleObjects takes the
QuadTree path. -/
def c5Hidden : List CanvasObject :=
  (List.range 50).map (fun i => mkHiddenObj (toString i) 0 0 5 5 0)

def c5Objs : List CanvasObject := c5Hidden ++ [farObj]

/-- C5 counterexample: with fifty-one objects (fifty hidden, one
visible outside the index world bounds) and the index rebuilt from the
same snapshot, the QuadTree-backed path returns nothing on a query
around the visible object while the linear bounds-filter returns it,
so the two paths do not agree for every snapshot. -/
theorem C5_counterexample :
    c5Objs.length > 50
    ∧ getVisibleObjects (advQuadTree.rebuild c5Objs) c5Objs farQuery = []
    ∧ linearQueryPath c5Objs farQuery = [farObj] := by
  refine ⟨by decide, by decide, by decide⟩

/-- C5 (amended): when every visible object of the snapshot has world
bounds inside the index root rectangle and the index is rebuilt from
the snapshot, the QuadTree-backed path taken above the 50-object
threshold returns the same objects (as a multiset, hence the same set)
as the direct linear bounds-filter on the same query rectangle. -/
theorem C5_tree_path_matches_linear (t : QuadTree) (objs : List CanvasObject) (qb : Rectangle)
    (hin : ∀ o ∈ objs, o.visible = true → rectContains t.root.boundsOf (objWorldBounds o))
    (hcount : objs.length > 50) :
    (treeQueryPath (t.rebuild objs) objs qb).Perm (linearQueryPath objs qb)
    ∧ getVisibleObjects (t.rebuild objs) objs qb = treeQueryPath (t.rebuild objs) objs qb := by
  constructor
  · apply List.perm_iff_count.mpr
    intro x
    unfold treeQueryPath linearQueryPath
    by_cases hv : x.visible = true
    · by_cases hmem : x ∈ objs
      · have htree : (x.visible && objs.contains x) = true := by simp [hv, hmem]
        rw [count_filter_pos (fun o => o.visible && objs.contains o) x _ htree,
          QuadTree.retrieve]
        have hmaster := rebuild_retrieve_count t objs qb hin x
        rw [QuadTree.retrieve] at hmaster
        rw [hmaster]
        unfold bruteForceQuery
        by_cases hq : boundsIntersect (objWorldBounds x) qb = true
        · have hbf : (x.visible && boundsIntersect (objWorldBounds x) qb) = true := by
            simp [hv, hq]
          have hlin : (x.visible &&
              !(decide (x.bounds.x + x.transform.x + x.bounds.width < qb.x)
                || decide (x.bounds.x + x.transform.x > qb.x + qb.width)
                || decide (x.bounds.y + x.transform.y + x.bounds.height < qb.y)
                || decide (x.bounds.y + x.transform.y > qb.y + qb.height))) = true := by
            rw [Bool.and_eq_true, linearPred_eq]
            exact ⟨hv, hq⟩
          rw [count_filter_pos _ x objs hbf, count_filter_pos _ x objs hlin]
        · rw [Bool.not_eq_true] at hq
          have hbf : (x.visible && boundsIntersect (objWorldBounds x) qb) = false := by
            simp [hq]
          have hlin : (x.visible &&
              !(decide (x.bounds.x + x.transform.x + x.bounds.width < qb.x)
                || decide (x.bounds.x + x.transform.x > qb.x + qb.width)
                || decide (x.bounds.y + x.transform.y + x.bounds.height < qb.y)
                || decide (x.bounds.y + x.transform.y > qb.y + qb.height))) = false := by
            rw [linearPred_eq x qb, hq, Bool.and_false]
          rw [count_filter_neg _ x objs hbf, count_filter_neg _ x objs hlin]
      · have htree : (x.visible && objs.contains x) = false := by simp [hmem]
        rw [count_filter_neg (fun o => o.visible && objs.contains o) x _ htree]
        have h0 : objs.count x = 0 := List.count_eq_zero.mpr hmem
        have hle := count_filter_le (fun o =>
          o.visible &&
          !(decide (o.bounds.x + o.transform.x + o.bounds.width < qb.x)
            || decide (o.bounds.x + o.transform.x > qb.x + qb.width)
            || decide (o.bounds.y + o.transform.y + o.bounds.height < qb.y)
            || decide (o.bounds.y + o.transform.y > qb.y + qb.height))) x objs
        omega
    · rw [Bool.not_eq_true] at hv
      rw [count_filter_neg (fun o => o.visible && objs.contains o) x _ (by simp [hv]),
        count_filter_neg _ x objs (by simp [hv])]
  · rw [getVisibleObjects, if_pos hcount]

/-- Fifty-one visible objects inside the index world bounds. -/
def c5Contained : List CanvasObject :=
  (List.range 51).map (fun i => mkRectObj (toString i) (10 * (i : ℚ)) 0 5 5 0)

/-- Witness for C5: on a contained 51-object snapshot the two query
paths agree. -/
theorem C5_tree_path_matches_linear_witness :
    (treeQueryPath (advQuadTree.rebuild c5Contained) c5Contained ⟨0, 0, 100, 100⟩).Perm
      (linearQueryPath c5Contained ⟨0, 0, 100, 100⟩)
    ∧ getVisibleObjects (advQuadTree.rebuild c5Contained) c5Contained ⟨0, 0, 100, 100⟩
        = treeQueryPath (advQuadTree.rebuild c5Contained) c5Contained ⟨0, 0, 100, 100⟩ :=
  C5_tree_path_matches_linear advQuadTree c5Contained ⟨0, 0, 100, 100⟩ (by decide) (by decide)

/-! ## C6: draw-list ordering -/

theorem mem_insertByLayer (x z : CanvasObject) :
    ∀ (l : List CanvasObject), z ∈ insertByLayer x l ↔ z = x ∨ z ∈ l := by
  intro l
  induction l with
  | nil => simp [insertByLayer]
  | cons y ys ih =>
    rw [insertByLayer]
    split
    · rw [List.mem_cons, ih, List.mem_cons]
      tauto
    · rw [List.mem_cons, List.mem_cons]

theorem insertByLayer_sorted (x : CanvasObject) :
    ∀ (l : List CanvasObject), List.Pairwise (fun a b => a.layer ≤ b.layer) l →
      List.Pairwise (fun a b => a.layer ≤ b.layer) (insertByLayer x l) := by
  intro l
  induction l with
  | nil => intro _; simp [insertByLayer]
  | cons y ys ih =>
    intro h
    rw [List.pairwise_cons] at h
    obtain ⟨hy, hys⟩ := h
    rw [insertByLayer]
    split
    case isTrue hlt =>
      rw [List.pairwise_cons]
      constructor
      · intro z hz
        rcases (mem_insertByLayer x z ys).mp hz with rfl | hz2
        · exact le_of_lt hlt
        · exact hy z hz2
      · exact ih hys
    case isFalse hge =>
      rw [List.pairwise_cons]
      refine ⟨?_, List.pairwise_cons.mpr ⟨hy, hys⟩⟩
      intro z hz
      rcases List.mem_cons.mp hz with rfl | hz2
      · exact le_of_not_lt hge
      · exact le_trans (le_of_not_lt hge) (hy z hz2)

theorem sortByLayer_sorted : ∀ (l : List CanvasObject),
    List.Pairwise (fun a b => a.layer ≤ b.layer) (sortByLayer l) := by
  intro l
  induction l with
  | nil => simp [sortByLayer]
  | cons x xs ih =>
    rw [sortByLayer]
    exact insertByLayer_sorted x _ ih

theorem count_insertByLayer (x z : CanvasObject) :
    ∀ (l : List CanvasObject), (insertByLayer x l).count z = (x :: l).count z := by
  intro l
  induction l with
  | nil => rfl
  | cons y ys ih =>
    rw [insertByLayer]
    split
    · rw [List.count_cons, ih]
      simp only [List.count_cons]
      omega
    · rfl

theorem count_sortByLayer (z : CanvasObject) :
    ∀ (l : List CanvasObject), (sortByLayer l).count z = l.count z := by
  intro l
  induction l with
  | nil => rfl
  | cons x xs ih =>
    rw [sortByLayer, count_insertByLayer, List.count_cons, List.count_cons, ih]

theorem filter_insertByLayer (x : CanvasObject) (k : ℚ) :
    ∀ (l : List CanvasObject),
      (insertByLayer x l).filter (fun o => o.layer == k)
        = if x.layer == k then x :: l.filter (fun o => o.layer == k)
          else l.filter (fun o => o.layer == k) := by
  intro l
  induction l with
  | nil =>
    rw [insertByLayer]
    by_cases hx : (x.layer == k) = true <;> simp [List.filter, hx]
  | cons y ys ih =>
    rw [insertByLayer]
    by_cases hyx : y.layer < x.layer
    · rw [if_pos hyx, List.filter_cons, ih]
      by_cases hx : (x.layer == k) = true
      · have hy : (y.layer == k) = false := by
          rw [beq_iff_eq] at hx
          rcases hb : y.layer == k with _ | _
          · rfl
          · rw [beq_iff_eq] at hb
            rw [hb, hx] at hyx
            exact absurd hyx (lt_irrefl k)
        rw [hx, hy, List.filter_cons, hy]
        simp
      · rw [Bool.not_eq_true] at hx
        rw [hx, List.filter_cons]
        simp
    · rw [if_neg hyx, List.filter_cons]

theorem filter_sortByLayer (k : ℚ) : ∀ (l : List CanvasObject),
    (sortByLayer l).filter (fun o => o.layer == k) = l.filter (fun o => o.layer == k) := by
  intro l
  induction l with
  | nil => rfl
  | cons x xs ih =>
    rw [sortByLayer, filter_insertByLayer, ih, List.filter_cons]

/-- Object stored in the northwest quadrant by the C6 scenario. -/
def objA : CanvasObject := mkRectObj "A" (-100) (-100) 10 10 0

/-- Seven fillers stored in the northeast quadrant by the C6 scenario. -/
def c6Fillers : List CanvasObject :=
  (List.range 7).map (fun i => mkRectObj ("f" ++ toString i) (100 + 10 * (i : ℚ)) (-100) 10 10 5)

/-- An object straddling both midlines, kept at the root. -/
def objB : CanvasObject := mkRectObj "B" (-50) (-50) 100 100 0

def c6Objs : List CanvasObject := objA :: c6Fillers ++ [objB]

/-- C6 counterexample: in the HighPerformanceRenderer pipeline the list
handed to the stable layer sort is the QuadTree traversal order, not
the snapshot order.  Objects A (snapshot first) and B (snapshot last)
share layer 0, but B is kept at the root while A is pushed into the
northwest child, so retrieval, and hence the sorted draw list, paints B
before A — the opposite of their snapshot order. -/
theorem C6_counterexample :
    (sortByLayer (hpVisibleObjects (hpQuadTree.rebuild c6Objs) hpTreeBounds)).filter
        (fun o => o.layer == 0) = [objB, objA]
    ∧ c6Objs.filter (fun o => o.visible && o.layer == 0) = [objA, objB] := by
  refine ⟨by decide, by decide⟩

/-- C6 (amended): the draw list is the stable ascending layer sort of
the retrieval-order candidate list: it is sorted by layer, it is a
permutation of the visible candidate list, and same-layer ties
preserve the relative order of the QuadTree retrieval list (not the
snapshot insertion order). -/
theorem C6_sort_stable_on_retrieval_order (t : QuadTree) (viewBounds : Rectangle) :
    List.Pairwise (fun a b => a.layer ≤ b.layer)
      (sortByLayer (hpVisibleObjects t viewBounds))
    ∧ (∀ k : ℚ, (sortByLayer (hpVisibleObjects t viewBounds)).filter (fun o => o.layer == k)
        = (hpVisibleObjects t viewBounds).filter (fun o => o.layer == k))
    ∧ ∀ x : CanvasObject, (sortByLayer (hpVisibleObjects t viewBounds)).count x
        = (hpVisibleObjects t viewBounds).count x :=
  ⟨sortByLayer_sorted _, fun k => filter_sortByLayer k _, fun x => count_sortByLayer x _⟩

/-! ## Cache lemmas (C2, C10) -/

theorem lookup_eq_none_iff {β : Type} (key : String) :
    ∀ (l : List (String × β)), l.lookup key = none ↔ key ∉ l.map Prod.fst := by
  intro l
  induction l with
  | nil => simp
  | cons kv tl ih =>
    obtain ⟨k, v⟩ := kv
    rcases hk : key == k with _ | _
    · have hne : key ≠ k := (beq_eq_false_iff_ne).mp hk
      simp only [List.lookup, hk, List.map_cons, List.mem_cons]
      rw [ih]
      constructor
      · intro h hc
        rcases hc with hc | hc
        · exact hne hc
        · exact h hc
      · intro h hc
        exact h (Or.inr hc)
    · have heq : key = k := eq_of_beq hk
      simp only [List.lookup, hk, List.map_cons, List.mem_cons]
      constructor
      · intro h
        cases h
      · intro h
        exact absurd (Or.inl heq) h

theorem lookup_append {β : Type} (key : String) :
    ∀ (l1 l2 : List (String × β)),
      (l1 ++ l2).lookup key
        = match l1.lookup key with
          | some v => some v
          | none => l2.lookup key := by
  intro l1 l2
  induction l1 with
  | nil => rfl
  | cons kv tl ih =>
    obtain ⟨k, v⟩ := kv
    rcases hk : key == k with _ | _
    · rw [List.cons_append]
      simp only [List.lookup, hk]
      exact ih
    · rw [List.cons_append]
      simp only [List.lookup, hk]

/-- On a miss of a cacheable object, getCachedPath returns the freshly
built path, and the new cache maps the key to that path (eviction only
removes the oldest key, never the one just inserted). -/
theorem getCachedPath_miss_lookup (s : PathCacheState) (obj : CanvasObject)
    (path : Path2DModel) (hinv : CacheInv s)
    (hl : s.cache.lookup (generatePathKey obj) = none)
    (hb : buildPath obj = some path) :
    (getCachedPath s obj).1 = some path
    ∧ (getCachedPath s obj).2.cache.lookup (generatePathKey obj) = some path := by
  obtain ⟨hnd, hmap⟩ := hinv
  have happ : (s.cache ++ [(generatePathKey obj, path)]).lookup (generatePathKey obj)
      = some path := by
    rw [lookup_append, hl]
    simp [List.lookup]
  simp only [getCachedPath, hl, hb]
  split
  case isTrue hlen =>
    split
    case h_1 heq =>
      rw [heq] at hlen
      simp at hlen
    case h_2 oldest rest heq =>
      refine ⟨rfl, ?_⟩
      dsimp only
      cases hkeys : s.keys with
      | nil =>
        rw [hkeys] at hlen
        simp at hlen
      | cons k0 ks =>
        rw [hkeys, List.cons_append] at heq
        injection heq with h1 h2
        cases hcache : s.cache with
        | nil =>
          rw [hcache, hkeys] at hmap
          simp at hmap
        | cons c0 cs =>
          obtain ⟨ck, cv⟩ := c0
          have hck : ck = k0 := by
            rw [hcache, hkeys] at hmap
            simp only [List.map_cons, List.cons.injEq] at hmap
            exact hmap.1
          simp only [List.cons_append]
          rw [List.eraseP_cons_of_pos]
          · have hlcs : cs.lookup (generatePathKey obj) = none := by
              rw [hcache] at hl
              rcases hkk : generatePathKey obj == ck with _ | _
              · simpa only [List.lookup, hkk] using hl
              · simp only [List.lookup, hkk] at hl
                exact Option.noConfusion hl
            rw [lookup_append, hlcs]
            simp [List.lookup]
          · rw [hck, ← h1]
            simp
  case isFalse =>
    exact ⟨rfl, happ⟩

/-- One getCachedPath call preserves the cache invariant and the
500-entry bound. -/
theorem getCachedPath_step (s : PathCacheState) (obj : CanvasObject)
    (hinv : CacheInv s) (hlen : s.keys.length ≤ 500) :
    CacheInv (getCachedPath s obj).2 ∧ (getCachedPath s obj).2.keys.length ≤ 500 := by
  obtain ⟨hnd, hmap⟩ := hinv
  rcases hl : s.cache.lookup (generatePathKey obj) with _ | p
  · rcases hb : buildPath obj with _ | path
    · simp only [getCachedPath, hl, hb]
      exact ⟨⟨hnd, hmap⟩, hlen⟩
    · have hkeymem : generatePathKey obj ∉ s.keys := by
        rw [← hmap]
        exact (lookup_eq_none_iff _ _).mp hl
      have hnd1 : (s.keys ++ [generatePathKey obj]).Nodup := by
        rw [List.nodup_append]
        exact ⟨hnd, List.nodup_singleton _, by simpa using hkeymem⟩
      have hmap1 : (s.cache ++ [(generatePathKey obj, path)]).map Prod.fst
          = s.keys ++ [generatePathKey obj] := by
        rw [List.map_append, hmap]
        rfl
      simp only [getCachedPath, hl, hb]
      split
      case isTrue hgt =>
        split
        case h_1 heq =>
          rw [heq] at hgt
          simp at hgt
        case h_2 oldest rest heq =>
          refine ⟨⟨?_, ?_⟩, ?_⟩
          · have hrest := hnd1
            rw [heq] at hrest
            exact (List.nodup_cons.mp hrest).2
          · dsimp only
            rw [heq] at hmap1
            cases hcache1 : s.cache ++ [(generatePathKey obj, path)] with
            | nil =>
              rw [hcache1] at hmap1
              simp at hmap1
            | cons c0 cs =>
              rw [hcache1] at hmap1
              simp only [List.map_cons, List.cons.injEq] at hmap1
              rw [List.eraseP_cons_of_pos]
              · exact hmap1.2
              · rw [hmap1.1]
                simp
          · dsimp only
            have hlen1 : (s.keys ++ [generatePathKey obj]).length = s.keys.length + 1 := by
              simp
            rw [heq] at hlen1
            simp only [List.length_cons] at hlen1
            omega
      case isFalse hle =>
        rw [not_lt] at hle
        exact ⟨⟨hnd1, hmap1⟩, by simpa using hle⟩
  · simp only [getCachedPath, hl]
    exact ⟨⟨hnd, hmap⟩, hlen⟩

theorem runCache_fold_inv :
    ∀ (objs : List CanvasObject) (s : PathCacheState),
      CacheInv s → s.keys.length ≤ 500 →
      CacheInv (objs.foldl (fun acc o => (getCachedPath acc o).2) s)
      ∧ (objs.foldl (fun acc o => (getCachedPath acc o).2) s).keys.length ≤ 500 := by
  intro objs
  induction objs with
  | nil => intro s h1 h2; exact ⟨h1, h2⟩
  | cons o rest ih =>
    intro s h1 h2
    rw [List.foldl_cons]
    obtain ⟨h1', h2'⟩ := getCachedPath_step s o h1 h2
    exact ih _ h1' h2'

/-- C2: over any call sequence from the empty cache the Path2D cache
never holds more entries than its capacity of 500, and whenever a full
cache takes a fresh cacheable signature, the evicted entry is the
oldest-inserted signature still present: the head of the insertion
queue is removed from both the queue and the Map, and the queue becomes
its tail plus the new signature (FIFO, irrespective of recent use). -/
theorem C2_cache_capacity_fifo :
    (∀ objs : List CanvasObject,
      (runCache objs).keys.length ≤ 500
      ∧ (runCache objs).cache.length = (runCache objs).keys.length)
    ∧ (∀ (s : PathCacheState) (obj : CanvasObject),
        CacheInv s → s.keys.length = 500 →
        s.cache.lookup (generatePathKey obj) = none →
        (buildPath obj).isSome = true →
        ∃ oldest rest, s.keys = oldest :: rest
          ∧ (getCachedPath s obj).2.keys = rest ++ [generatePathKey obj]
          ∧ (getCachedPath s obj).2.cache.lookup oldest = none) := by
  constructor
  · intro objs
    have h := runCache_fold_inv objs emptyPathCache ⟨List.nodup_nil, rfl⟩
      (by simp [emptyPathCache])
    obtain ⟨⟨hnd, hmap⟩, hlen⟩ := h
    refine ⟨hlen, ?_⟩
    rw [runCache, ← hmap, List.length_map]
  · intro s obj hinv hlen hmiss hsome
    obtain ⟨hnd, hmap⟩ := hinv
    rcases hb : buildPath obj with _ | path
    · rw [hb] at hsome
      simp at hsome
    · have hkeymem : generatePathKey obj ∉ s.keys := by
        rw [← hmap]
        exact (lookup_eq_none_iff _ _).mp hmiss
      cases hkeys : s.keys with
      | nil =>
        rw [hkeys] at hlen
        simp at hlen
      | cons k0 ks =>
        rw [hkeys] at hlen hkeymem hnd
        have hgt : (k0 :: (ks ++ [generatePathKey obj])).length > 500 := by
          simp only [List.length_cons, List.length_append, List.length_singleton]
          simp only [List.length_cons] at hlen
          omega
        refine ⟨k0, ks, rfl, ?_, ?_⟩
        · simp only [getCachedPath, hmiss, hb, hkeys, List.cons_append]
          rw [if_pos hgt]
        · cases hcache : s.cache with
          | nil =>
            rw [hcache, hkeys] at hmap
            simp at hmap
          | cons c0 cs =>
            obtain ⟨ck, cv⟩ := c0
            rw [hcache, hkeys] at hmap
            simp only [List.map_cons, List.cons.injEq] at hmap
            simp only [getCachedPath, hmiss, hb, hkeys, List.cons_append]
            rw [if_pos hgt, hcache, List.cons_append, List.eraseP_cons_of_pos]
            · apply (lookup_eq_none_iff _ _).mpr
              rw [List.map_append, hmap.2]
              simp only [List.mem_append, List.map_cons, List.map_nil, List.mem_singleton]
              rintro (hk | hk)
              · exact (List.nodup_cons.mp hnd).1 hk
              · exact hkeymem (hk ▸ List.mem_cons_self k0 ks)
            · rw [hmap.1]
              simp

/-- Distinct placeholder keys for the witness cache. -/
def keyOfNat (n : Nat) : String := String.mk ('z' :: List.replicate n 'a')

/-- A full 500-entry cache in insertion order. -/
def bigCache : PathCacheState :=
  ⟨(List.range 500).map (fun i => (keyOfNat i, Path2DModel.rect 1 1)),
   (List.range 500).map keyOfNat⟩

/-- A fresh cacheable rectangle whose key is not in bigCache. -/
def freshRect : CanvasObject := mkRectObj "w" 0 0 6 6 0

theorem keyOfNat_injective : Function.Injective keyOfNat := by
  intro a b h
  have hdata : 'z' :: List.replicate a 'a' = 'z' :: List.replicate b 'a' := by
    have hd := congrArg String.data h
    simpa [keyOfNat] using hd
  have hrep : List.replicate a 'a' = List.replicate b 'a' := by
    injection hdata
  have hlen := congrArg List.length hrep
  simpa using hlen

theorem bigCache_inv : CacheInv bigCache := by
  constructor
  · exact List.Nodup.map keyOfNat_injective (List.nodup_range 500)
  · simp [bigCache, List.map_map, Function.comp]

theorem bigCache_full : bigCache.keys.length = 500 := by
  simp [bigCache]

theorem freshRect_key : generatePathKey freshRect = "rectangle-6-6-0" := by decide

theorem bigCache_miss : bigCache.cache.lookup (generatePathKey freshRect) = none := by
  apply (lookup_eq_none_iff _ _).mpr
  intro hmem
  rw [show bigCache.cache.map Prod.fst = bigCache.keys from bigCache_inv.2] at hmem
  simp only [bigCache, List.mem_map, List.mem_range] at hmem
  obtain ⟨i, _, hi⟩ := hmem
  rw [freshRect_key] at hi
  have hd := congrArg String.data hi
  simp only [keyOfNat] at hd
  have hhead : ('z' :: List.replicate i 'a').head? = some 'z' := rfl
  rw [hd] at hhead
  exact absurd hhead (by decide)

/-- Witness for C2: inserting a fresh signature into the full cache
evicts exactly the first-inserted key. -/
theorem C2_cache_capacity_fifo_witness :
    ∃ oldest rest, bigCache.keys = oldest :: rest
      ∧ (getCachedPath bigCache freshRect).2.keys = rest ++ [generatePathKey freshRect]
      ∧ (getCachedPath bigCache freshRect).2.cache.lookup oldest = none :=
  C2_cache_capacity_fifo.2 bigCache freshRect
    bigCache_inv bigCache_full bigCache_miss (by decide)

/-- buildPath returns null exactly for the uncacheable types. -/
theorem buildPath_none_iff (o : CanvasObject) :
    buildPath o = none ↔ (o.type = ObjectType.text ∨ o.type = ObjectType.line) := by
  unfold buildPath
  cases hty : o.type with
  | rectangle =>
    cases hcr : o.style.cornerRadius with
    | none => simp
    | some cr =>
      by_cases h : cr > 0
      · simp [h]
      · simp [h]
  | circle => simp
  | text => simp
  | line => simp

theorem buildPath_none_of_type (o1 o2 : CanvasObject) (ht : o1.type = o2.type)
    (h : buildPath o1 = none) : buildPath o2 = none := by
  rw [buildPath_none_iff] at h ⊢
  rw [← ht]
  exact h

/-- C10: the cache key depends only on type, bounds.width,
bounds.height and cornerRadius, so two objects agreeing on those four
fields share a key, and a second getCachedPath call for the second
object returns exactly what the first call returned (the cached path,
or null for uncacheable types), whatever their id, position, colors,
opacity, layer or visibility. -/
theorem C10_cache_key_only_shape_fields (s : PathCacheState) (o1 o2 : CanvasObject)
    (hinv : CacheInv s)
    (ht : o1.type = o2.type) (hw : o1.bounds.width = o2.bounds.width)
    (hh : o1.bounds.height = o2.bounds.height)
    (hr : o1.style.cornerRadius.getD 0 = o2.style.cornerRadius.getD 0) :
    generatePathKey o1 = generatePathKey o2
    ∧ (getCachedPath ((getCachedPath s o1).2) o2).1 = (getCachedPath s o1).1 := by
  have hkey : generatePathKey o1 = generatePathKey o2 := by
    unfold generatePathKey
    rw [ht, hw, hh, hr]
  refine ⟨hkey, ?_⟩
  rcases hl : s.cache.lookup (generatePathKey o1) with _ | p
  · rcases hb : buildPath o1 with _ | path
    · have hb2 : buildPath o2 = none := buildPath_none_of_type o1 o2 ht hb
      simp only [getCachedPath, hl, hb, ← hkey, hb2]
    · have hm := getCachedPath_miss_lookup s o1 path hinv hl hb
      have hm2 := hm.2
      rw [hkey] at hm2
      conv =>
        lhs
        rw [getCachedPath, hm2]
      rw [hm.1]
  · simp only [getCachedPath, hl, ← hkey]

/-- First query object: plain black rectangle at (1,2). -/
def shapeObjA : CanvasObject := mkRectObj "p" 1 2 30 40 0

/-- Second query object: same shape signature, different id, position,
style, layer and lock state. -/
def shapeObjB : CanvasObject :=
  ⟨"q", .rectangle, ⟨9, 9, 30, 40⟩,
    ⟨"#ff0000", "blue", 2, 1 / 2, none, none, none, none⟩,
    ⟨5, 5, 0, 1, 1⟩, 7, true, true, false, none, none⟩

/-- Witness for C10: two objects agreeing only on the shape signature
share the cached path. -/
theorem C10_cache_key_only_shape_fields_witness :
    generatePathKey shapeObjA = generatePathKey shapeObjB
    ∧ (getCachedPath ((getCachedPath emptyPathCache shapeObjA).2) shapeObjB).1
        = (getCachedPath emptyPathCache shapeObjA).1 :=
  C10_cache_key_only_shape_fields emptyPathCache shapeObjA shapeObjB
    ⟨List.nodup_nil, rfl⟩ (by decide) (by decide) (by decide) (by decide)

/-! ## C3: level-of-detail monotonicity -/

theorem screenSizeOf_eq (obj : CanvasObject) (z : ℚ) (hz : 0 ≤ z) :
    screenSizeOf obj z = max obj.bounds.width obj.bounds.height * z := by
  unfold screenSizeOf
  rw [max_mul_of_nonneg _ _ hz]

/-- C3: for a fixed object, a smaller (positive) zoom never yields a
higher detail tier, in both the AdvancedCanvasRenderer (2px/8px) and
HighPerformanceRenderer (3px/8px) level-of-detail selectors: the only
transitions as the on-screen size shrinks are full to simplified to
micro. -/
theorem C3_lod_monotone (obj : CanvasObject) (z1 z2 : ℚ) (h0 : 0 < z1) (h12 : z1 ≤ z2) :
    (detailLevelAdv obj z1).rank ≤ (detailLevelAdv obj z2).rank
    ∧ (detailLevelHP obj z1).rank ≤ (detailLevelHP obj z2).rank := by
  have hz2 : 0 < z2 := lt_of_lt_of_le h0 h12
  have key : screenSizeOf obj z1 ≤ screenSizeOf obj z2
      ∨ (screenSizeOf obj z1 < 2 ∧ screenSizeOf obj z2 < 2) := by
    by_cases hm : 0 ≤ max obj.bounds.width obj.bounds.height
    · left
      rw [screenSizeOf_eq obj z1 (le_of_lt h0), screenSizeOf_eq obj z2 (le_of_lt hz2)]
      exact mul_le_mul_of_nonneg_left h12 hm
    · right
      rw [not_le] at hm
      constructor
      · rw [screenSizeOf_eq obj z1 (le_of_lt h0)]
        have := mul_neg_of_neg_of_pos hm h0
        linarith
      · rw [screenSizeOf_eq obj z2 (le_of_lt hz2)]
        have := mul_neg_of_neg_of_pos hm hz2
        linarith
  rcases key with hle | ⟨ha, hb⟩
  · constructor
    · unfold detailLevelAdv
      split_ifs <;> first | decide | (exfalso; linarith)
    · unfold detailLevelHP
      split_ifs <;> first | decide | (exfalso; linarith)
  · constructor
    · unfold detailLevelAdv
      rw [if_pos ha, if_pos hb]
    · unfold detailLevelHP
      rw [if_pos (by linarith : screenSizeOf obj z1 < 3),
        if_pos (by linarith : screenSizeOf obj z2 < 3)]

/-- Witness for C3: a 100x100 object at zoom 1/100 versus zoom 1. -/
theorem C3_lod_monotone_witness :
    (detailLevelAdv (mkRectObj "m" 0 0 100 100 0) (1 / 100)).rank
      ≤ (detailLevelAdv (mkRectObj "m" 0 0 100 100 0) 1).rank
    ∧ (detailLevelHP (mkRectObj "m" 0 0 100 100 0) (1 / 100)).rank
      ≤ (detailLevelHP (mkRectObj "m" 0 0 100 100 0) 1).rank :=
  C3_lod_monotone (mkRectObj "m" 0 0 100 100 0) (1 / 100) 1 (by norm_num) (by norm_num)

/-! ## C9: zoom-to-point anchor preservation -/

/-- C9: a non-animated zoomTo(zoom, centerX, centerY) keeps the world
point under the given screen point fixed, and applies the requested
zoom clamped into the interval from 0.1 to 5. -/
theorem C9_zoomTo_preserves_anchor (v : ViewportState) (zoom centerX centerY : ℚ)
    (hz : 0 < v.zoom) :
    screenToWorld (zoomToPoint v zoom centerX centerY) centerX centerY
      = screenToWorld v centerX centerY
    ∧ (zoomToPoint v zoom centerX centerY).zoom = max (1 / 10) (min 5 zoom) := by
  have hcl : (0 : ℚ) < max (1 / 10) (min 5 zoom) :=
    lt_of_lt_of_le (by norm_num) (le_max_left _ _)
  constructor
  · unfold screenToWorld zoomToPoint
    dsimp only
    rw [Prod.mk.injEq]
    constructor
    · field_simp
      ring
    · field_simp
      ring
  · rfl

/-- Witness for C9: zooming to 2x about screen point (400, 300) from a
translated viewport. -/
theorem C9_zoomTo_preserves_anchor_witness :
    screenToWorld (zoomToPoint ⟨10, 20, 1, ⟨0, 0, 10000, 10000⟩⟩ 2 400 300) 400 300
      = screenToWorld ⟨10, 20, 1, ⟨0, 0, 10000, 10000⟩⟩ 400 300
    ∧ (zoomToPoint ⟨10, 20, 1, ⟨0, 0, 10000, 10000⟩⟩ 2 400 300).zoom = max (1 / 10) (min 5 2) :=
  C9_zoomTo_preserves_anchor ⟨10, 20, 1, ⟨0, 0, 10000, 10000⟩⟩ 2 400 300 (by norm_num)

/-! ## C4: frame scheduler -/

/-- At most one callback is ever queued, and the recorded id is the
queued one. -/
def SchedInv (s : SchedState) : Prop :=
  s.pending = [] ∨ ∃ k, s.pending = [k] ∧ s.renderRequestId = some k

theorem renderCall_defer (d p : Bool) (t : ℚ) (s : SchedState)
    (hinv : SchedInv s) (ht : t - s.lastRenderTime < targetFrameTime d p) :
    (renderCall d p t s).lastRenderTime = s.lastRenderTime
    ∧ (renderCall d p t s).paints = s.paints
    ∧ (renderCall d p t s).pending = [s.nextId]
    ∧ (renderCall d p t s).renderRequestId = some s.nextId := by
  unfold renderCall
  rw [if_pos ht]
  refine ⟨rfl, rfl, ?_, rfl⟩
  dsimp only
  rcases hinv with hnil | ⟨k, hk, hr⟩
  · cases hri : s.renderRequestId <;> simp [hnil]
  · rw [hr, hk]
    simp

theorem renderCall_paint (d p : Bool) (t : ℚ) (s : SchedState)
    (ht : ¬ t - s.lastRenderTime < targetFrameTime d p) :
    renderCall d p t s = { s with lastRenderTime := t, paints := s.paints ++ [t] } := by
  unfold renderCall
  rw [if_neg ht]

theorem renderCall_inv (d p : Bool) (t : ℚ) (s : SchedState) (h : SchedInv s) :
    SchedInv (renderCall d p t s) := by
  by_cases ht : t - s.lastRenderTime < targetFrameTime d p
  · obtain ⟨_, _, hp, hr⟩ := renderCall_defer d p t s h ht
    exact Or.inr ⟨s.nextId, hp, hr⟩
  · rw [renderCall_paint d p t s ht]
    rcases h with hnil | ⟨k, hk, hr⟩
    · exact Or.inl hnil
    · exact Or.inr ⟨k, hk, hr⟩

theorem schedStep_inv (d p : Bool) (s : SchedState) (e : SchedEvent) (h : SchedInv s) :
    SchedInv (schedStep d p s e) := by
  cases e with
  | request t => exact renderCall_inv d p t s h
  | fire t =>
    rw [schedStep]
    rcases hp : s.pending with _ | ⟨i, rest⟩
    · exact h
    · apply renderCall_inv
      rcases h with hnil | ⟨k, hk, hr⟩
      · rw [hnil] at hp
        cases hp
      · rw [hk] at hp
        injection hp with h1 h2
        exact Or.inl (by rw [← h2])

theorem schedRun_inv (d p : Bool) :
    ∀ (es : List SchedEvent) (s : SchedState), SchedInv s → SchedInv (schedRun d p s es) := by
  intro es
  induction es with
  | nil => intro s h; exact h
  | cons e rest ih =>
    intro s h
    rw [schedRun, List.foldl_cons]
    exact ih _ (schedStep_inv d p s e h)

theorem schedRun_requests (d p : Bool) :
    ∀ (ts : List ℚ) (s : SchedState), SchedInv s →
      (∀ x ∈ ts, x - s.lastRenderTime < targetFrameTime d p) →
      (schedRun d p s (ts.map SchedEvent.request)).lastRenderTime = s.lastRenderTime
      ∧ (schedRun d p s (ts.map SchedEvent.request)).paints = s.paints
      ∧ SchedInv (schedRun d p s (ts.map SchedEvent.request))
      ∧ (ts ≠ [] → ∃ k, (schedRun d p s (ts.map SchedEvent.request)).pending = [k]
          ∧ (schedRun d p s (ts.map SchedEvent.request)).renderRequestId = some k) := by
  intro ts
  induction ts with
  | nil =>
    intro s hinv _
    exact ⟨rfl, rfl, hinv, fun h => absurd rfl h⟩
  | cons t rest ih =>
    intro s hinv hmem
    have ht : t - s.lastRenderTime < targetFrameTime d p := hmem t (List.mem_cons_self t rest)
    obtain ⟨hlast, hpaints, hpend, hrid⟩ := renderCall_defer d p t s hinv ht
    have hinv1 : SchedInv (renderCall d p t s) := Or.inr ⟨s.nextId, hpend, hrid⟩
    have hmem1 : ∀ x ∈ rest, x - (renderCall d p t s).lastRenderTime < targetFrameTime d p := by
      intro x hx
      rw [hlast]
      exact hmem x (List.mem_cons_of_mem t hx)
    have hrun : schedRun d p s ((t :: rest).map SchedEvent.request)
        = schedRun d p (renderCall d p t s) (rest.map SchedEvent.request) := by
      rw [List.map_cons, schedRun, List.foldl_cons]
      rfl
    obtain ⟨ih1, ih2, ih3, ih4⟩ := ih (renderCall d p t s) hinv1 hmem1
    rw [hrun]
    refine ⟨by rw [ih1, hlast], by rw [ih2, hpaints], ih3, fun _ => ?_⟩
    by_cases hrest : rest = []
    · subst hrest
      exact ⟨s.nextId, hpend, hrid⟩
    · exact ih4 hrest

theorem schedRun_early_fires (d p : Bool) :
    ∀ (us : List ℚ) (s : SchedState),
      (∀ x ∈ us, x - s.lastRenderTime < targetFrameTime d p) →
      (∃ k, s.pending = [k] ∧ s.renderRequestId = some k) →
      (schedRun d p s (us.map SchedEvent.fire)).lastRenderTime = s.lastRenderTime
      ∧ (schedRun d p s (us.map SchedEvent.fire)).paints = s.paints
      ∧ ∃ k, (schedRun d p s (us.map SchedEvent.fire)).pending = [k]
          ∧ (schedRun d p s (us.map SchedEvent.fire)).renderRequestId = some k := by
  intro us
  induction us with
  | nil =>
    intro s _ harm
    exact ⟨rfl, rfl, harm⟩
  | cons u rest ih =>
    intro s hmem harm
    obtain ⟨k, hk, hr⟩ := harm
    have hstep : schedStep d p s (SchedEvent.fire u)
        = renderCall d p u { s with pending := [] } := by
      rw [schedStep, hk]
    have ht : u - ({ s with pending := [] } : SchedState).lastRenderTime
        < targetFrameTime d p := hmem u (List.mem_cons_self u rest)
    obtain ⟨hlast, hpaints, hpend, hrid⟩ := renderCall_defer d p u { s with pending := [] }
      (Or.inl rfl) ht
    have hrun : schedRun d p s ((u :: rest).map SchedEvent.fire)
        = schedRun d p (renderCall d p u { s with pending := [] })
            (rest.map SchedEvent.fire) := by
      rw [List.map_cons, schedRun, List.foldl_cons, hstep]
      rfl
    have hmem1 : ∀ x ∈ rest,
        x - (renderCall d p u { s with pending := [] }).lastRenderTime
          < targetFrameTime d p := by
      intro x hx
      rw [hlast]
      exact hmem x (List.mem_cons_of_mem u hx)
    obtain ⟨ih1, ih2, ih3⟩ := ih _ hmem1 ⟨_, hpend, hrid⟩
    rw [hrun]
    exact ⟨by rw [ih1, hlast], by rw [ih2, hpaints], ih3⟩

theorem schedStep_final_fire (d p : Bool) (u : ℚ) (s : SchedState)
    (harm : ∃ k, s.pending = [k] ∧ s.renderRequestId = some k)
    (hu : targetFrameTime d p ≤ u - s.lastRenderTime) :
    (schedStep d p s (SchedEvent.fire u)).paints = s.paints ++ [u]
    ∧ (schedStep d p s (SchedEvent.fire u)).pending = []
    ∧ (schedStep d p s (SchedEvent.fire u)).lastRenderTime = u := by
  obtain ⟨k, hk, _⟩ := harm
  have hstep : schedStep d p s (SchedEvent.fire u)
      = renderCall d p u { s with pending := [] } := by
    rw [schedStep, hk]
  rw [hstep, renderCall_paint d p u _ (by rw [not_lt]; exact hu)]
  exact ⟨rfl, rfl, rfl⟩

/-- C4: (a) from a freshly painted state, any event sequence leaves at
most one callback queued (each deferral cancels the previous callback
before scheduling the next); (b) the target frame interval is shortest
while dragging, medium while panning, longest while idle; (c) any
nonempty burst of requests issued within one target interval of the
last paint, followed by callback firings of which only the last comes
at or after the interval has elapsed, produces exactly one paint, at
that last firing time — no earlier paint, no extra paint, and no
request is dropped. -/
theorem C4_frame_throttling_coalesces (d p : Bool) :
    (∀ (t0 : ℚ) (es : List SchedEvent),
      (schedRun d p (initSched t0) es).pending.length ≤ 1)
    ∧ (targetFrameTime true false ≤ targetFrameTime false true
       ∧ targetFrameTime false true ≤ targetFrameTime false false)
    ∧ (∀ (s : SchedState) (ts us : List ℚ) (u : ℚ),
        SchedInv s → s.pending = [] → ts ≠ [] →
        (∀ x ∈ ts, x - s.lastRenderTime < targetFrameTime d p) →
        (∀ x ∈ us, x - s.lastRenderTime < targetFrameTime d p) →
        targetFrameTime d p ≤ u - s.lastRenderTime →
        (schedRun d p s (ts.map SchedEvent.request ++ us.map SchedEvent.fire
            ++ [SchedEvent.fire u])).paints = s.paints ++ [u]
        ∧ (schedRun d p s (ts.map SchedEvent.request ++ us.map SchedEvent.fire
            ++ [SchedEvent.fire u])).pending = []) := by
  refine ⟨?_, ⟨by norm_num [targetFrameTime], by norm_num [targetFrameTime]⟩, ?_⟩
  · intro t0 es
    have h := schedRun_inv d p es (initSched t0) (Or.inl rfl)
    rcases h with hnil | ⟨k, hk, _⟩
    · rw [hnil]
      exact Nat.zero_le 1
    · rw [hk]
      exact le_refl 1
  · intro s ts us u hinv _ hts hmemt hmemu hu
    obtain ⟨hq1, hq2, hq3, hq4⟩ := schedRun_requests d p ts s hinv hmemt
    obtain ⟨k1, hk1, hr1⟩ := hq4 hts
    set s1 := schedRun d p s (ts.map SchedEvent.request) with hs1
    have hmemu1 : ∀ x ∈ us, x - s1.lastRenderTime < targetFrameTime d p := by
      intro x hx
      rw [hq1]
      exact hmemu x hx
    obtain ⟨hf1, hf2, hf3⟩ := schedRun_early_fires d p us s1 hmemu1 ⟨k1, hk1, hr1⟩
    set s2 := schedRun d p s1 (us.map SchedEvent.fire) with hs2
    have hu2 : targetFrameTime d p ≤ u - s2.lastRenderTime := by
      rw [hf1, hq1]
      exact hu
    obtain ⟨hp1, hp2, _⟩ := schedStep_final_fire d p u s2 hf3 hu2
    have hsplit : schedRun d p s (ts.map SchedEvent.request ++ us.map SchedEvent.fire
        ++ [SchedEvent.fire u]) = schedStep d p s2 (SchedEvent.fire u) := by
      rw [schedRun, List.foldl_append, List.foldl_append]
      rfl
    rw [hsplit, hp1, hp2, hf2, hq2]
    exact ⟨rfl, rfl⟩

/-- Witness for C4: three requests within 12ms of the last paint plus
an early firing coalesce into exactly one paint at the late firing. -/
theorem C4_frame_throttling_coalesces_witness :
    (schedRun false false (initSched 0) ([(1 : ℚ), 2, 3].map SchedEvent.request
        ++ [(8 : ℚ)].map SchedEvent.fire ++ [SchedEvent.fire 20])).paints
      = (initSched 0).paints ++ [20]
    ∧ (schedRun false false (initSched 0) ([(1 : ℚ), 2, 3].map SchedEvent.request
        ++ [(8 : ℚ)].map SchedEvent.fire ++ [SchedEvent.fire 20])).pending = [] :=
  (C4_frame_throttling_coalesces false false).2.2 (initSched 0) [1, 2, 3] [8] 20
    (Or.inl rfl) rfl (by decide) (by decide) (by decide) (by decide)

end RadixCanvas
